import Mathlib

/-!
# Verification of the trend-to-video matching pipeline

Shallow embedding of the matching pipeline of the `reindex_trends`
repository (TypeScript sources under `src/`): the data model
(`src/types.ts`), the transcript chunker (`src/ingest.ts`), the candidate
retriever, acceptance gate and orchestrator (`src/matcher.ts` CLI variant
and the `/api/match-selected` handler of the server variant), and the
LLM evaluation client with its JSON repair cascade (server variant with
`jsonrepair`, CLI variant without).

Modelling conventions:
* JavaScript strings are modelled as Lean `String` / `List Char`;
  `text.substring`, `indexOf`, `lastIndexOf` are given explicit
  list-based models (`jsSubstring`, `jsIndexOfChar`, `jsLastIndexOfChar`).
* JavaScript numbers are modelled as `ℚ` (the scores and thresholds that
  occur in the pipeline are decided away from any float-representation
  boundary, so the comparisons agree with the float64 originals).
* `JSON.parse` is modelled by an executable recursive-descent parser
  `jsonParse` over a `Json` value type; the third-party `jsonrepair`
  library is external to the repository and is modelled as an arbitrary
  `String → String` parameter of the cascade.
* The external embedding provider and the generation provider are
  parameters of the orchestrator environment (`Env`): an embedding
  function, a similarity function, an evaluation oracle and a YouTube
  suggestion oracle.  Transport failure of the generation provider is
  modelled by feeding `Except String (Option String)` outcomes to the
  evaluation client.
-/

/-! ## Data model (src/types.ts) -/

/-- `Video` record (`src/types.ts`). -/
structure Video where
  video_id : String
  title_current : String
  transcript_full : String
  transcript_intro : String
  published_at : String
  url : String
  deriving Repr, DecidableEq

/-- `VideoChunk` record (`src/types.ts`); the Float32 BLOB round-trip of
the stored embedding is abstracted to the vector itself. -/
structure VideoChunk where
  video_id : String
  chunk_id : ℕ
  chunk_text : String
  embedding : List ℚ
  deriving Repr, DecidableEq

/-- `Trend` record (`src/types.ts`). -/
structure Trend where
  trend_id : String
  title : String
  summary : String
  keywords : String
  source : String
  created_at : String
  deriving Repr, DecidableEq

/-- `LLMEvaluation` record (`src/types.ts`). -/
structure LLMEvaluation where
  semantic_relevance : ℚ
  intro_support : ℚ
  honesty_risk : ℚ
  allowed : Bool
  titles : List String
  thumbnails : List String
  notes : String
  deriving Repr, DecidableEq

/-- `Recommendation` record (`src/types.ts`): `titles` and `thumbnails`
are stored JSON-serialized (strings), as in the TypeScript type. -/
structure Recommendation where
  trend_id : String
  video_id : String
  semantic_relevance : ℚ
  intro_support : ℚ
  honesty_risk : ℚ
  titles : String
  thumbnails : String
  notes : String
  deriving Repr, DecidableEq

/-- `YouTubeVideoSuggestion` record (`src/types.ts`). -/
structure YouTubeVideoSuggestion where
  title : String
  views : ℕ
  channelTitle : String
  videoId : String
  deriving Repr, DecidableEq

/-! ## Kernel-computable rational arithmetic

The field operations of `ℚ` are `@[irreducible]` in this toolchain, so a
concrete pipeline run could not be evaluated by `decide`/`rfl` if the
embedding used them directly.  The embedding therefore uses the
following `mkRat`-based operations, each proven equal to the
corresponding field operation, so every theorem can still be stated in
ordinary `ℚ` arithmetic. -/

def qAdd (a b : ℚ) : ℚ := mkRat (a.num * b.den + b.num * a.den) (a.den * b.den)

def qMul (a b : ℚ) : ℚ := mkRat (a.num * b.num) (a.den * b.den)

def qInv (a : ℚ) : ℚ :=
  if a.num ≥ 0 then mkRat (a.den : ℤ) a.num.toNat
  else mkRat (-(a.den : ℤ)) (-a.num).toNat

def qDiv (a b : ℚ) : ℚ := qMul a (qInv b)

/-- `10 ^ e` for an integer exponent. -/
def qPow10 (e : ℤ) : ℚ :=
  match e with
  | Int.ofNat n => mkRat ((10 ^ n : ℕ) : ℤ) 1
  | Int.negSucc n => mkRat 1 (10 ^ (n + 1))

def qOfNat (n : ℕ) : ℚ := mkRat (n : ℤ) 1

def qOfInt (n : ℤ) : ℚ := mkRat n 1

theorem mkRat_eq_divCast (n : ℤ) (d : ℕ) : mkRat n d = (n : ℚ) / (d : ℚ) := by
  rw [Rat.mkRat_eq_divInt, Rat.divInt_eq_div]
  push_cast
  rfl

theorem qAdd_eq (a b : ℚ) : qAdd a b = a + b := by
  have ha : ((a.den : ℚ)) ≠ 0 := by exact_mod_cast a.den_nz
  have hb : ((b.den : ℚ)) ≠ 0 := by exact_mod_cast b.den_nz
  rw [qAdd, mkRat_eq_divCast]
  push_cast
  conv_rhs => rw [← Rat.num_div_den a, ← Rat.num_div_den b]
  field_simp

theorem qMul_eq (a b : ℚ) : qMul a b = a * b := by
  have ha : ((a.den : ℚ)) ≠ 0 := by exact_mod_cast a.den_nz
  have hb : ((b.den : ℚ)) ≠ 0 := by exact_mod_cast b.den_nz
  rw [qMul, mkRat_eq_divCast]
  push_cast
  conv_rhs => rw [← Rat.num_div_den a, ← Rat.num_div_den b]
  field_simp

theorem qInv_eq (a : ℚ) : qInv a = a⁻¹ := by
  have h := Rat.inv_def' a
  rw [Rat.divInt_eq_div] at h
  rw [qInv]
  by_cases hn : a.num ≥ 0
  · rw [if_pos hn, mkRat_eq_divCast]
    rw [show ((a.num.toNat : ℕ) : ℚ) = ((a.num : ℚ)) by
      exact_mod_cast congrArg (Int.cast : ℤ → ℚ) (Int.toNat_of_nonneg hn)]
    rw [h]
  · rw [if_neg hn, mkRat_eq_divCast]
    rw [show (((-a.num).toNat : ℕ) : ℚ) = ((-a.num : ℚ)) by
      exact_mod_cast congrArg (Int.cast : ℤ → ℚ) (Int.toNat_of_nonneg (by omega))]
    rw [h]
    push_cast
    rw [neg_div_neg_eq]

theorem qDiv_eq (a b : ℚ) : qDiv a b = a / b := by
  rw [qDiv, qMul_eq, qInv_eq, div_eq_mul_inv]

theorem qPow10_eq (e : ℤ) : qPow10 e = (10 : ℚ) ^ e := by
  match e with
  | Int.ofNat n =>
    rw [qPow10, mkRat_eq_divCast]
    rw [show (Int.ofNat n : ℤ) = ((n : ℕ) : ℤ) from rfl, zpow_natCast]
    push_cast
    ring
  | Int.negSucc n =>
    rw [qPow10, mkRat_eq_divCast, zpow_negSucc]
    push_cast
    rw [one_div]

theorem qOfNat_eq (n : ℕ) : qOfNat n = (n : ℚ) := by
  rw [qOfNat, mkRat_eq_divCast]
  simp

theorem qOfInt_eq (n : ℤ) : qOfInt n = (n : ℚ) := by
  rw [qOfInt, mkRat_eq_divCast]
  simp

/-! ## Pipeline constants (src/matcher.ts lines 10-16, identical in the
server variant) -/

def TOP_CANDIDATES_PER_TREND : ℕ := 3
def TOP_CHUNKS_FOR_LLM : ℕ := 3
def MIN_SEMANTIC_RELEVANCE : ℚ := mkRat 65 100
def MIN_INTRO_SUPPORT : ℚ := mkRat 65 100
def MAX_HONESTY_RISK : ℚ := mkRat 30 100

theorem MIN_SEMANTIC_RELEVANCE_eq : MIN_SEMANTIC_RELEVANCE = 65/100 := by
  rw [MIN_SEMANTIC_RELEVANCE, mkRat_eq_divCast]; norm_num

theorem MIN_INTRO_SUPPORT_eq : MIN_INTRO_SUPPORT = 65/100 := by
  rw [MIN_INTRO_SUPPORT, mkRat_eq_divCast]; norm_num

theorem MAX_HONESTY_RISK_eq : MAX_HONESTY_RISK = 30/100 := by
  rw [MAX_HONESTY_RISK, mkRat_eq_divCast]; norm_num

/-! ## Transcript chunker (src/ingest.ts lines 110-121; the earlier
ingest variant in the unnamed source part has the same function) -/

def CHUNK_SIZE : ℕ := 1000
def CHUNK_OVERLAP : ℕ := 150

/-- One `text.substring(start, end)` slice for `start ≤ end ≤ length`,
on the character-list model of a JavaScript string. -/
def jsSlice (text : List Char) (start stop : ℕ) : List Char :=
  (text.drop start).take (stop - start)

/-- The loop of `chunkText`, with explicit fuel so that the definition
reduces by `decide`/`rfl`; `chunkText` supplies enough fuel for the loop
to run to completion (the offset advances by `CHUNK_SIZE - CHUNK_OVERLAP
= 850 > 0` characters per iteration). -/
def chunkTextAux : ℕ → List Char → ℕ → List (List Char)
  | 0, _, _ => []
  | fuel + 1, text, start =>
    if start < text.length then
      jsSlice text start (min (start + CHUNK_SIZE) text.length) ::
        chunkTextAux fuel text (start + (CHUNK_SIZE - CHUNK_OVERLAP))
    else []

/-- `chunkText` (src/ingest.ts): fixed-size character windows with
overlap. -/
def chunkText (text : List Char) : List (List Char) :=
  chunkTextAux (text.length + 1) text 0

/-! ## Acceptance gate (src/matcher.ts lines 60-64; identical in the
server handler, src/db.ts server variant) -/

/-- The acceptance decision applied to an evaluation
(`const accepted = evaluation.allowed && ... ;`). -/
def acceptanceGate (e : LLMEvaluation) : Bool :=
  e.allowed &&
  decide (e.semantic_relevance ≥ MIN_SEMANTIC_RELEVANCE) &&
  decide (e.intro_support ≥ MIN_INTRO_SUPPORT) &&
  decide (e.honesty_risk ≤ MAX_HONESTY_RISK)

/-! ## Claim C10 -/

theorem chunk_step_eq : CHUNK_SIZE - CHUNK_OVERLAP = 850 := rfl

theorem chunkTextAux_fuel_irrel :
    ∀ (f : ℕ), ∀ (g : ℕ) (text : List Char) (start : ℕ),
      text.length ≤ start + f → text.length ≤ start + g →
      chunkTextAux (f + 1) text start = chunkTextAux (g + 1) text start := by
  intro f
  induction f using Nat.strong_induction_on with
  | _ f IH =>
    intro g text start hf hg
    by_cases hs : start < text.length
    · obtain ⟨f', rfl⟩ : ∃ f', f = f' + 1 := ⟨f - 1, by omega⟩
      obtain ⟨g', rfl⟩ : ∃ g', g = g' + 1 := ⟨g - 1, by omega⟩
      simp only [chunkTextAux, if_pos hs]
      congr 1
      exact IH f' (by omega) g' text (start + (CHUNK_SIZE - CHUNK_OVERLAP))
        (by rw [chunk_step_eq]; omega) (by rw [chunk_step_eq]; omega)
    · simp only [chunkTextAux, if_neg hs]

/-- Positional characterization of the chunk list: chunk `k` is the
window starting at offset `850 k`. -/
theorem chunkTextAux_getElem :
    ∀ (f : ℕ), ∀ (text : List Char) (start k : ℕ),
      text.length ≤ start + f →
      (chunkTextAux (f + 1) text start)[k]? =
        if start + 850 * k < text.length then
          some (jsSlice text (start + 850 * k)
            (min (start + 850 * k + CHUNK_SIZE) text.length))
        else none := by
  intro f
  induction f using Nat.strong_induction_on with
  | _ f IH =>
    intro text start k hf
    by_cases hs : start < text.length
    · obtain ⟨f', rfl⟩ : ∃ f', f = f' + 1 := ⟨f - 1, by omega⟩
      rw [chunkTextAux, if_pos hs]
      cases k with
      | zero =>
        rw [List.getElem?_cons_zero, if_pos (by omega)]
        norm_num
      | succ k' =>
        rw [List.getElem?_cons_succ,
          IH f' (by omega) text (start + (CHUNK_SIZE - CHUNK_OVERLAP)) k'
            (by rw [chunk_step_eq]; omega)]
        rw [chunk_step_eq]
        have harith : start + 850 + 850 * k' = start + 850 * (k' + 1) := by ring
        rw [harith]
    · rw [chunkTextAux, if_neg hs]
      rw [List.getElem?_nil, if_neg (by omega)]

theorem chunkText_getElem (text : List Char) (k : ℕ) :
    (chunkText text)[k]? =
      if 850 * k < text.length then
        some (jsSlice text (850 * k) (min (850 * k + CHUNK_SIZE) text.length))
      else none := by
  unfold chunkText
  have := chunkTextAux_getElem text.length text 0 k (by omega)
  simpa using this


set_option maxRecDepth 20000 in
/-- Counterexample to C10 as stated: on an input of length 1800 the
chunker yields chunks of lengths 1000, 950, 100 — the second chunk is
before the last yet is 950 characters long, not exactly 1000 (the claim
`all chunks before the last have length exactly CHUNK_SIZE` is false). -/
theorem chunking_coverage_counterexample :
    ((chunkText (List.replicate 1800 'a')).map List.length) = [1000, 950, 100] ∧
    ((chunkText (List.replicate 1800 'a')).dropLast.all
      (fun c => c.length = 1000)) = false := by
  constructor
  · decide
  · decide


set_option maxRecDepth 8000 in
/-- C10 (amended) — chunking totality and coverage: the chunking loop
terminates within its fuel (any sufficient fuel yields the same list;
the offset advances by `CHUNK_SIZE - CHUNK_OVERLAP = 850 > 0` per
iteration), every chunk has length at most `CHUNK_SIZE = 1000`, every
chunk except possibly the last two has length exactly 1000 (the
second-to-last chunk is shorter whenever the text ends between its
start + 850 and its start + 1000), a chunk that is not the last overlaps
the next one in exactly `CHUNK_OVERLAP = 150` characters, every
character position of the input is covered by some chunk, and the empty
string yields no chunks. -/
theorem chunking_totality_coverage (text : List Char) :
    (∀ g, text.length ≤ g → chunkTextAux (g + 1) text 0 = chunkText text) ∧
    (∀ c ∈ chunkText text, c.length ≤ CHUNK_SIZE) ∧
    (∀ k c, k + 2 < (chunkText text).length → (chunkText text)[k]? = some c →
      c.length = CHUNK_SIZE) ∧
    (∀ k ck ck1, k + 2 < (chunkText text).length →
      (chunkText text)[k]? = some ck → (chunkText text)[k + 1]? = some ck1 →
      ck.drop (CHUNK_SIZE - CHUNK_OVERLAP) = ck1.take CHUNK_OVERLAP ∧
      (ck.drop (CHUNK_SIZE - CHUNK_OVERLAP)).length = CHUNK_OVERLAP) ∧
    (∀ i, i < text.length → ∃ c ∈ chunkText text, ∃ j : ℕ,
      getElem? c j = getElem? text i) ∧
    chunkText ([] : List Char) = [] := by
  have hCS : CHUNK_SIZE = 1000 := rfl
  have hCO : CHUNK_OVERLAP = 150 := rfl
  have hlen_lt : ∀ k, k < (chunkText text).length → 850 * k < text.length := by
    intro k hk
    by_contra hge
    have : (chunkText text)[k]? = none := by
      rw [chunkText_getElem, if_neg hge]
    rw [List.getElem?_eq_none_iff] at this
    omega
  refine ⟨?_, ?_, ?_, ?_, ?_, ?_⟩
  · intro g hg
    unfold chunkText
    exact chunkTextAux_fuel_irrel g text.length text 0 (by omega) (by omega)
  · intro c hc
    obtain ⟨k, hk⟩ := List.mem_iff_getElem?.mp hc
    rw [chunkText_getElem] at hk
    by_cases hin : 850 * k < text.length
    · rw [if_pos hin] at hk
      obtain rfl := (Option.some.injEq _ _).mp hk.symm
      unfold jsSlice
      rw [List.length_take, List.length_drop]
      omega
    · rw [if_neg hin] at hk
      exact absurd hk (by simp)
  · intro k c hk2 hk
    have h2 : 850 * (k + 2) < text.length := hlen_lt (k + 2) hk2
    rw [chunkText_getElem, if_pos (by omega)] at hk
    obtain rfl := (Option.some.injEq _ _).mp hk.symm
    unfold jsSlice
    rw [List.length_take, List.length_drop]
    omega
  · intro k ck ck1 hk2 hk hk1
    have h2 : 850 * (k + 2) < text.length := hlen_lt (k + 2) hk2
    rw [chunkText_getElem, if_pos (by omega)] at hk hk1
    obtain rfl := (Option.some.injEq _ _).mp hk.symm
    obtain rfl := (Option.some.injEq _ _).mp hk1.symm
    unfold jsSlice
    rw [chunk_step_eq, hCO]
    have hmin1 : min (850 * k + CHUNK_SIZE) text.length - 850 * k = 1000 := by omega
    have hmin2 : 850 * (k + 1) = 850 * k + 850 := by ring
    rw [hmin1, List.drop_take, List.drop_drop, List.take_take]
    have h150 : (1000 : ℕ) - 850 = 150 := by norm_num
    rw [h150]
    constructor
    · rw [hmin2]
      have hmin3 : min 150 (min (850 * k + 850 + CHUNK_SIZE) text.length -
          (850 * k + 850)) = 150 := by omega
      rw [hmin3]
    · rw [List.length_take, List.length_drop]
      omega
  · intro i hi
    refine ⟨jsSlice text (850 * (i / 850))
      (min (850 * (i / 850) + CHUNK_SIZE) text.length), ?_, i - 850 * (i / 850), ?_⟩
    · have hsome : (chunkText text)[i / 850]? =
          some (jsSlice text (850 * (i / 850))
            (min (850 * (i / 850) + CHUNK_SIZE) text.length)) := by
        rw [chunkText_getElem, if_pos ?_]
        have := Nat.div_mul_le_self i 850
        omega
      exact List.mem_iff_getElem?.mpr ⟨i / 850, hsome⟩
    · unfold jsSlice
      have hdiv : 850 * (i / 850) ≤ i := by
        have := Nat.div_mul_le_self i 850
        omega
      have hmod : i < 850 * (i / 850) + 850 := by
        have h1 := Nat.div_add_mod i 850
        have h2 := Nat.mod_lt i (show 0 < 850 by norm_num)
        omega
      rw [List.getElem?_take, if_pos (by omega), List.getElem?_drop]
      congr 1
      omega
  · rfl

set_option maxRecDepth 20000 in
/-- Witness for the amended C10 at a concrete 1800-character input. -/
theorem chunking_totality_coverage_witness :
    (List.replicate 1000 'a' : List Char).length = CHUNK_SIZE ∧
    (∃ c ∈ chunkText (List.replicate 1800 'a'), ∃ j : ℕ,
      getElem? c j = getElem? (List.replicate (1800 : ℕ) 'a') 1799) ∧
    chunkText ([] : List Char) = [] :=
  ⟨(chunking_totality_coverage (List.replicate 1800 'a')).2.2.1 0
      (List.replicate 1000 'a') (by decide) (by decide),
   (chunking_totality_coverage (List.replicate 1800 'a')).2.2.2.2.1 1799 (by decide),
   (chunking_totality_coverage []).2.2.2.2.2⟩

/-! ## JSON values and `JSON.parse` model

`JSON.parse` (an ECMAScript builtin, external to the repository) is
modelled by an executable recursive-descent parser for the JSON grammar
(ECMA-404): whitespace, `null`, `true`, `false`, numbers, strings with
escapes, arrays and objects.  UTF-16 surrogate pairing inside `\u`
escapes is abstracted (each escape yields one character). -/

/-- JSON values; numbers are modelled as rationals. -/
inductive Json where
  | null : Json
  | bool (b : Bool) : Json
  | num (q : ℚ) : Json
  | str (s : String) : Json
  | arr (elems : List Json) : Json
  | obj (fields : List (String × Json)) : Json
  deriving Repr

/-- The left-brace character `{`. -/
def lBrace : Char := Char.ofNat 123

/-- The right-brace character `}`. -/
def rBrace : Char := Char.ofNat 125

/-- JSON insignificant whitespace. -/
def jsonWs (c : Char) : Bool :=
  c = ' ' || c = '\t' || c = '\n' || c = '\r'

def skipWs (cs : List Char) : List Char := cs.dropWhile jsonWs

def isJsonDigit (c : Char) : Bool := '0' ≤ c && c ≤ '9'

def digitVal (c : Char) : ℕ := c.toNat - 48

def natOfDigits (ds : List Char) : ℕ :=
  ds.foldl (fun n c => 10 * n + digitVal c) 0

def hexVal (c : Char) : Option ℕ :=
  if '0' ≤ c && c ≤ '9' then some (c.toNat - 48)
  else if 'a' ≤ c && c ≤ 'f' then some (c.toNat - 87)
  else if 'A' ≤ c && c ≤ 'F' then some (c.toNat - 55)
  else none

/-- The single-character JSON string escapes. -/
def escSimple (c : Char) : Option Char :=
  if c = '"' then some '"'
  else if c = '\\' then some '\\'
  else if c = '/' then some '/'
  else if c = 'b' then some (Char.ofNat 8)
  else if c = 'f' then some (Char.ofNat 12)
  else if c = 'n' then some '\n'
  else if c = 'r' then some '\r'
  else if c = 't' then some '\t'
  else none

/-- Parse the body of a JSON string after the opening quote; returns the
decoded characters and the remaining input after the closing quote. -/
def parseStrBody : ℕ → List Char → Option (List Char × List Char)
  | 0, _ => none
  | _ + 1, [] => none
  | fuel + 1, c :: rest =>
    if c = '"' then some ([], rest)
    else if c = '\\' then
      match rest with
      | [] => none
      | e :: rest' =>
        if e = 'u' then
          match rest' with
          | h1 :: h2 :: h3 :: h4 :: rest'' =>
            match hexVal h1, hexVal h2, hexVal h3, hexVal h4 with
            | some a, some b, some c', some d =>
              (parseStrBody fuel rest'').map fun (body, rem) =>
                (Char.ofNat (((a * 16 + b) * 16 + c') * 16 + d) :: body, rem)
            | _, _, _, _ => none
          | _ => none
        else
          match escSimple e with
          | some decoded =>
            (parseStrBody fuel rest').map fun (body, rem) =>
              (decoded :: body, rem)
          | none => none
    else if c.toNat ≥ 32 then
      (parseStrBody fuel rest).map fun (body, rem) => (c :: body, rem)
    else none

/-- Parse a JSON number (`-? int frac? exp?`); mirrors `JSON.parse`:
no leading zeros, no leading `+`, mandatory digits around `.` and after
the exponent marker. -/
def parseNum (cs : List Char) : Option (ℚ × List Char) :=
  let (sign, cs₁) : ℚ × List Char :=
    match cs with
    | c :: rest => if c = '-' then (qOfInt (-1), rest) else (qOfInt 1, cs)
    | [] => (qOfInt 1, cs)
  match cs₁ with
  | [] => none
  | c :: _ =>
    if !isJsonDigit c then none
    else
      let (intDigits, cs₂) :=
        if c = '0' then ([c], cs₁.drop 1)
        else (cs₁.takeWhile isJsonDigit, cs₁.dropWhile isJsonDigit)
      let intPart : ℚ := qOfNat (natOfDigits intDigits)
      let (fracVal, cs₃) : Option ℚ × List Char :=
        match cs₂ with
        | d :: rest =>
          if d = '.' then
            let ds := rest.takeWhile isJsonDigit
            if ds.isEmpty then (none, cs₂)
            else (some (mkRat (natOfDigits ds : ℤ) (10 ^ ds.length)),
                  rest.dropWhile isJsonDigit)
          else (some (qOfNat 0), cs₂)
        | [] => (some (qOfNat 0), cs₂)
      match fracVal with
      | none => none
      | some frac =>
        let (expVal, cs₄) : Option ℤ × List Char :=
          match cs₃ with
          | e :: rest =>
            if e = 'e' || e = 'E' then
              let (esign, rest') : ℤ × List Char :=
                match rest with
                | s :: rest'' =>
                  if s = '+' then (1, rest'')
                  else if s = '-' then (-1, rest'')
                  else (1, rest)
                | [] => (1, rest)
              let ds := rest'.takeWhile isJsonDigit
              if ds.isEmpty then (none, cs₃)
              else (some (esign * (natOfDigits ds : ℤ)),
                    rest'.dropWhile isJsonDigit)
            else (some 0, cs₃)
          | [] => (some 0, cs₃)
        match expVal with
        | none => none
        | some ex => some (qMul (qMul sign (qAdd intPart frac)) (qPow10 ex), cs₄)

/-- Does the input start with the given keyword? -/
def stripKeyword (kw : List Char) (cs : List Char) : Option (List Char) :=
  if cs.take kw.length = kw then some (cs.drop kw.length) else none

mutual

/-- Parse one JSON value (leading whitespace allowed). -/
def parseVal : ℕ → List Char → Option (Json × List Char)
  | 0, _ => none
  | fuel + 1, cs =>
    let cs := skipWs cs
    match cs with
    | [] => none
    | c :: rest =>
      if c = lBrace then
        parseObjFields fuel (skipWs rest) true
      else if c = '[' then
        parseArrElems fuel (skipWs rest) true
      else if c = '"' then
        (parseStrBody (rest.length + 1) rest).map fun (body, rem) =>
          (Json.str (String.mk body), rem)
      else if c = 't' then
        (stripKeyword ['t', 'r', 'u', 'e'] cs).map fun rem =>
          (Json.bool true, rem)
      else if c = 'f' then
        (stripKeyword ['f', 'a', 'l', 's', 'e'] cs).map fun rem =>
          (Json.bool false, rem)
      else if c = 'n' then
        (stripKeyword ['n', 'u', 'l', 'l'] cs).map fun rem =>
          (Json.null, rem)
      else
        (parseNum cs).map fun (q, rem) => (Json.num q, rem)

/-- Parse the members of an object after the opening brace (whitespace
already skipped); `first` is true before the first member. -/
def parseObjFields : ℕ → List Char → Bool → Option (Json × List Char)
  | 0, _, _ => none
  | fuel + 1, cs, first =>
    match cs with
    | [] => none
    | c :: rest =>
      if c = rBrace && first then some (Json.obj [], rest)
      else
        let step (cs' : List Char) : Option (Json × List Char) :=
          match skipWs cs' with
          | k :: rest' =>
            if k = '"' then
              match parseStrBody (rest'.length + 1) rest' with
              | some (keyChars, afterKey) =>
                match skipWs afterKey with
                | ':' :: afterColon =>
                  match parseVal fuel afterColon with
                  | some (v, afterVal) =>
                    match parseObjFields fuel (skipWs afterVal) false with
                    | some (Json.obj fields, rem) =>
                      some (Json.obj ((String.mk keyChars, v) :: fields), rem)
                    | _ => none
                  | none => none
                | _ => none
              | none => none
            else none
          | [] => none
        if first then step cs
        else if c = rBrace then some (Json.obj [], rest)
        else if c = ',' then step rest
        else none

/-- Parse the elements of an array after the opening bracket (whitespace
already skipped); `first` is true before the first element. -/
def parseArrElems : ℕ → List Char → Bool → Option (Json × List Char)
  | 0, _, _ => none
  | fuel + 1, cs, first =>
    match cs with
    | [] => none
    | c :: rest =>
      if c = ']' && first then some (Json.arr [], rest)
      else
        let step (cs' : List Char) : Option (Json × List Char) :=
          match parseVal fuel cs' with
          | some (v, afterVal) =>
            match parseArrElems fuel (skipWs afterVal) false with
            | some (Json.arr elems, rem) => some (Json.arr (v :: elems), rem)
            | _ => none
          | none => none
        if first then step cs
        else if c = ']' then some (Json.arr [], rest)
        else if c = ',' then step rest
        else none

end

/-- Model of `JSON.parse`: parse one value and require only whitespace
to remain; `none` models a thrown `SyntaxError`. -/
def jsonParse (s : String) : Option Json :=
  let cs := s.toList
  match parseVal (2 * cs.length + 2) cs with
  | some (v, rem) => if (skipWs rem).isEmpty then some v else none
  | none => none

/-- Property access `obj[key]` on a parsed JSON value: `none` models
`undefined` (also for non-object values); with duplicate keys,
`JSON.parse` keeps the last occurrence, as does this lookup. -/
def jsGetField : Json → String → Option Json
  | Json.obj fields, k =>
    fields.foldl (fun acc p => if p.1 = k then some p.2 else acc) none
  | _, _ => none

/-! ## Evaluation client (src/db.ts server variant lines 748-905;
src/matcher.ts CLI variant lines 210-292)

The generation provider call is modelled by an outcome value
`Except String (Option String)`: `Except.error e` is a transport-level
failure (the thrown error's message), `Except.ok c` is a successful call
whose `response.choices[0].message.content` is `c` (`none` models a
`null` content field).  The `jsonrepair` library is an external npm
dependency, modelled as an arbitrary `String → String` function. -/

/-- `content.indexOf(c)` (JavaScript, `-1` when absent). -/
def jsIndexOfChar (s : String) (c : Char) : ℤ :=
  match s.toList.findIdx? (· = c) with
  | some i => (i : ℤ)
  | none => -1

/-- `content.lastIndexOf(c)` (JavaScript, `-1` when absent). -/
def jsLastIndexOfChar (s : String) (c : Char) : ℤ :=
  match s.toList.reverse.findIdx? (· = c) with
  | some i => (s.length : ℤ) - 1 - (i : ℤ)
  | none => -1

/-- `s.substring(i)` for `0 ≤ i`. -/
def jsSubstringFrom (s : String) (i : ℕ) : String := String.mk (s.toList.drop i)

/-- `s.substring(0, j)` for `0 ≤ j`. -/
def jsSubstringTo (s : String) (j : ℕ) : String := String.mk (s.toList.take j)

/-- The brace-slicing repair step of the server `evaluateWithLLM`
(src/db.ts lines 840-852): drop any text before the first `{` (only when
the first `{` is at a positive index), then drop any text after the last
`}` (only when that `}` is at a positive interior index). -/
def braceCleanup (content : String) : String :=
  let fb := jsIndexOfChar content lBrace
  let fixed₁ := if fb > 0 then jsSubstringFrom content fb.toNat else content
  let lb := jsLastIndexOfChar fixed₁ rBrace
  if lb > 0 && lb < (fixed₁.length : ℤ) - 1 then jsSubstringTo fixed₁ (lb.toNat + 1)
  else fixed₁

/-- The ordered parse-strategy cascade of the server `evaluateWithLLM`
(src/db.ts lines 830-877): direct parse, then parse of the brace-sliced
text, then parse of the `jsonrepair`-ed original text; `none` means all
three strategies failed. -/
def repairCascade (repair : String → String) (content : String) : Option Json :=
  match jsonParse content with
  | some j => some j
  | none =>
    match jsonParse (braceCleanup content) with
    | some j => some j
    | none => jsonParse (repair content)

/-- `response.choices[0].message.content || '{}'` (JavaScript `||`
replaces both `null` and the empty string). -/
def jsOrEmptyObj (content : Option String) : String :=
  match content with
  | some s => if s.isEmpty then "\x7b\x7d" else s
  | none => "\x7b\x7d"

/-- `typeof evaluation[k] === 'number'` on a parsed JSON value. -/
def isNumField (j : Json) (k : String) : Bool :=
  match jsGetField j k with
  | some (Json.num _) => true
  | _ => false

/-- `typeof evaluation[k] === 'boolean'` on a parsed JSON value. -/
def isBoolField (j : Json) (k : String) : Bool :=
  match jsGetField j k with
  | some (Json.bool _) => true
  | _ => false

/-- The structure validation of both `evaluateWithLLM` variants: the
three scores must be numbers and `allowed` must be a boolean (failing it
throws `'Invalid LLM response structure'`). -/
def validEvaluation (j : Json) : Bool :=
  isNumField j "semantic_relevance" && isNumField j "intro_support" &&
  isNumField j "honesty_risk" && isBoolField j "allowed"

def getNumField (j : Json) (k : String) : ℚ :=
  match jsGetField j k with
  | some (Json.num q) => q
  | _ => qOfNat 0

def getBoolField (j : Json) (k : String) : Bool :=
  match jsGetField j k with
  | some (Json.bool b) => b
  | _ => false

def getStrField (j : Json) (k : String) : String :=
  match jsGetField j k with
  | some (Json.str s) => s
  | _ => ""

def getStrListField (j : Json) (k : String) : List String :=
  match jsGetField j k with
  | some (Json.arr xs) =>
    xs.filterMap fun x =>
      match x with
      | Json.str s => some s
      | _ => none
  | _ => []

/-- The unchecked cast `JSON.parse(content) as LLMEvaluation` for a
value that passed `validEvaluation`; the text-bearing fields are not
validated by the code and are coerced leniently here (no claim depends
on them). -/
def evaluationOfJson (j : Json) : LLMEvaluation :=
  { semantic_relevance := getNumField j "semantic_relevance"
    intro_support := getNumField j "intro_support"
    honesty_risk := getNumField j "honesty_risk"
    allowed := getBoolField j "allowed"
    titles := getStrListField j "titles"
    thumbnails := getStrListField j "thumbnails"
    notes := getStrField j "notes" }

/-- The synthetic, maximally conservative Evaluation returned on every
failure path (both variants): scores `0, 0, 1.0`, `allowed = false`,
empty lists, and a notes field recording the failure reason. -/
def conservativeRejection (note : String) : LLMEvaluation :=
  { semantic_relevance := qOfNat 0
    intro_support := qOfNat 0
    honesty_risk := qOfNat 1
    allowed := false
    titles := []
    thumbnails := []
    notes := note }

/-- Stands in for the runtime `SyntaxError.message` interpolated into
the `JSON parse failed: ...` notes (opaque in this model). -/
def jsParseErrorMessage : String := "Unexpected token"

/-- Server-variant `evaluateWithLLM` (src/db.ts lines 748-905): one
model call, the repair cascade, structure validation, and conversion of
every failure to `conservativeRejection`. -/
def evaluateWithLLMServer (repair : String → String)
    (outcome : Except String (Option String)) : LLMEvaluation :=
  match outcome with
  | Except.error e => conservativeRejection ("Evaluation failed: " ++ e)
  | Except.ok c =>
    let content := jsOrEmptyObj c
    match repairCascade repair content with
    | none => conservativeRejection ("JSON parse failed: " ++ jsParseErrorMessage)
    | some j =>
      if validEvaluation j then evaluationOfJson j
      else conservativeRejection "Evaluation failed: Invalid LLM response structure"

/-- CLI-variant `evaluateWithLLM` (src/matcher.ts lines 210-292): one
model call, a single direct `JSON.parse`, structure validation, and a
catch-all returning the conservative rejection with notes
`'Evaluation failed'`. -/
def evaluateWithLLMCli (outcome : Except String (Option String)) : LLMEvaluation :=
  match outcome with
  | Except.error _ => conservativeRejection "Evaluation failed"
  | Except.ok c =>
    let content := jsOrEmptyObj c
    match jsonParse content with
    | none => conservativeRejection "Evaluation failed"
    | some j =>
      if validEvaluation j then evaluationOfJson j
      else conservativeRejection "Evaluation failed"

/-! ## JSON.stringify for string lists

Used by the orchestrator to serialize `evaluation.titles` /
`evaluation.thumbnails` into the persisted Recommendation. -/

/-- JSON string escaping of one character (`JSON.stringify`). -/
def escapeJsonChar (c : Char) : List Char :=
  if c = '"' then ['\\', '"']
  else if c = '\\' then ['\\', '\\']
  else if c = '\n' then ['\\', 'n']
  else if c = '\r' then ['\\', 'r']
  else if c = '\t' then ['\\', 't']
  else if c = Char.ofNat 8 then ['\\', 'b']
  else if c = Char.ofNat 12 then ['\\', 'f']
  else if c.toNat < 32 then
    let hexDigit (n : ℕ) : Char := if n < 10 then Char.ofNat (48 + n) else Char.ofNat (87 + n)
    ['\\', 'u', '0', '0', hexDigit (c.toNat / 16), hexDigit (c.toNat % 16)]
  else [c]

/-- `JSON.stringify` of a string. -/
def jsonStringifyStr (s : String) : String :=
  "\"" ++ String.mk (s.toList.flatMap escapeJsonChar) ++ "\""

/-- `JSON.stringify` of an array of strings. -/
def jsonStringifyStrList (xs : List String) : String :=
  "[" ++ String.intercalate "," (xs.map jsonStringifyStr) ++ "]"

/-! ## Theme enricher (`extractBroaderThemes`, src/db.ts server variant
lines 626-669; the CLI variant has four of the five clusters) -/

/-- Is `pat` a prefix of `l`? (executable). -/
def startsWithL (l pat : List Char) : Bool := l.take pat.length = pat

/-- JavaScript `s.includes(sub)`: substring search. -/
def containsSub : List Char → List Char → Bool
  | l, pat =>
    if startsWithL l pat then true
    else
      match l with
      | [] => false
      | _ :: t => containsSub t pat

/-- JavaScript `s.includes(sub)` on strings. -/
def jsIncludes (s sub : String) : Bool := containsSub s.toList sub.toList

/-- JavaScript `s.toLowerCase()` (ASCII model). -/
def jsToLower (s : String) : String := String.mk (s.toList.map Char.toLower)

/-- `extractBroaderThemes` (server variant): classify the combined
lowercased title+summary against five keyword clusters and append the
matched clusters' broader-vocabulary phrases to the summary. -/
def extractBroaderThemes (trend : Trend) : String :=
  let title := jsToLower trend.title
  let summary := jsToLower trend.summary
  let combined := title ++ " " ++ summary
  let themes : List String :=
    (if jsIncludes combined "ai" || jsIncludes combined "artificial intelligence" ||
        jsIncludes combined "chatgpt" || jsIncludes combined "machine learning" then
      ["artificial intelligence, AI technology, automation, tech innovation, digital transformation"]
    else []) ++
    (if jsIncludes combined "budget" || jsIncludes combined "tax" ||
        jsIncludes combined "income tax" || jsIncludes combined "fiscal" then
      ["taxation, financial planning, income tax, savings, money management, personal finance"]
    else []) ++
    (if jsIncludes combined "job" || jsIncludes combined "layoff" ||
        jsIncludes combined "career" || jsIncludes combined "employment" then
      ["careers, employment, job market, professional growth, work opportunities"]
    else []) ++
    (if jsIncludes combined "stock" || jsIncludes combined "market" ||
        jsIncludes combined "investment" || jsIncludes combined "trading" then
      ["investing, stock market, wealth building, financial markets, trading"]
    else []) ++
    (if jsIncludes combined "real estate" || jsIncludes combined "property" ||
        jsIncludes combined "housing" || jsIncludes combined "home" then
      ["real estate, property investment, housing market, home ownership"]
    else [])
  if themes.length > 0 then
    trend.summary ++ ". Related themes: " ++ String.intercalate ", " themes
  else trend.summary

/-! ## Candidate retriever (`getCandidateVideos`, src/db.ts server
variant lines 671-746; the CLI variant at src/matcher.ts lines 107-175
is identical except for the explicit empty-chunk-store check and debug
logging) -/

/-- One entry of the `chunkScores` array. -/
structure ChunkScore where
  video_id : String
  chunk_text : String
  similarity : ℚ
  deriving Repr, DecidableEq

/-- One value of the `videoScores` map: the pushed `scores` array and the
pushed `chunks` array. -/
structure VideoScoreData where
  scores : List ℚ
  chunks : List (String × ℚ)
  deriving Repr, DecidableEq

/-- One loop step of the aggregation over `chunkScores`: a JavaScript
`Map` keeps first-insertion key order, and `push` appends. -/
def groupStep (m : List (String × VideoScoreData)) (s : ChunkScore) :
    List (String × VideoScoreData) :=
  if (m.find? (fun p => p.1 = s.video_id)).isSome then
    m.map fun p =>
      if p.1 = s.video_id then
        (p.1, { scores := p.2.scores ++ [s.similarity],
                chunks := p.2.chunks ++ [(s.chunk_text, s.similarity)] })
      else p
  else
    m ++ [(s.video_id, { scores := [s.similarity], chunks := [(s.chunk_text, s.similarity)] })]

/-- The `videoScores` map after the aggregation loop, as an
insertion-ordered association list. -/
def groupByVideo (l : List ChunkScore) : List (String × VideoScoreData) :=
  l.foldl groupStep []

/-- One candidate as returned by `getCandidateVideos`. -/
structure CandidateVideo where
  video : Video
  avgSimilarity : ℚ
  topChunks : List String
  deriving Repr, DecidableEq

/-- The comparator `(a, b) => b.score - a.score` as a stable-sort
ordering on `(text, score)` pairs; `Array.prototype.sort` is required to
be stable, and `List.insertionSort` with this relation is its model. -/
def scoreDesc (a b : String × ℚ) : Prop := b.2 ≤ a.2

instance : DecidableRel scoreDesc := fun a b => inferInstanceAs (Decidable (b.2 ≤ a.2))

instance : IsTotal (String × ℚ) scoreDesc := ⟨fun a b => le_total b.2 a.2⟩

instance : IsTrans (String × ℚ) scoreDesc := ⟨fun _ _ _ h1 h2 => le_trans h2 h1⟩

/-- The comparator `(a, b) => b.avgSimilarity - a.avgSimilarity`. -/
def avgDesc (a b : CandidateVideo) : Prop := b.avgSimilarity ≤ a.avgSimilarity

instance : DecidableRel avgDesc := fun a b =>
  inferInstanceAs (Decidable (b.avgSimilarity ≤ a.avgSimilarity))

instance : IsTotal CandidateVideo avgDesc := ⟨fun a b => le_total b.avgSimilarity a.avgSimilarity⟩

instance : IsTrans CandidateVideo avgDesc := ⟨fun _ _ _ h1 h2 => le_trans h2 h1⟩

/-- The per-video candidate constructed from one `videoScores` entry
(`continue` on a `video_id` with no matching Video is `Option.none`):
aggregate score `scores.reduce((a, b) => a + b, 0) / scores.length` and
the top 5 chunks by individual score. -/
def candidateOfEntry (allVideos : List Video) (p : String × VideoScoreData) :
    Option CandidateVideo :=
  (allVideos.find? (fun v => v.video_id = p.1)).map fun video =>
    { video := video
      avgSimilarity := qDiv (p.2.scores.foldl qAdd (qOfNat 0)) (qOfNat p.2.scores.length)
      topChunks := ((List.insertionSort scoreDesc p.2.chunks).take 5).map Prod.fst }

/-! ## Orchestrator environment and state -/

/-- The read-only corpus and the external collaborators of one run:
`embedFn` models `generateEmbedding`, `simFn` models `cosineSimilarity`
(both from the absent `src/embeddings.ts`), `modelFn` models the OpenAI
chat-completion call outcome fed to `evaluateWithLLMServer`, `repair`
models the `jsonrepair` library, and `ytFn` models
`getYouTubeTitleSuggestions`. -/
structure Env where
  trends : List Trend
  videos : List Video
  chunks : List VideoChunk
  embedFn : String → List ℚ
  simFn : List ℚ → List ℚ → ℚ
  modelFn : Trend → Video → List String → Except String (Option String)
  repair : String → String
  ytFn : Trend → List YouTubeVideoSuggestion

/-- `SELECT * FROM trends WHERE trend_id = ?` (`DB.getTrend`). -/
def getTrend (env : Env) (trendId : String) : Option Trend :=
  env.trends.find? fun t => t.trend_id = trendId

/-- The `chunkScores` array: similarity of every stored chunk against
the enriched trend query embedding. -/
def chunkScoresOf (env : Env) (trend : Trend) : List ChunkScore :=
  let trendEmbedding := env.embedFn (extractBroaderThemes trend)
  env.chunks.map fun ch =>
    { video_id := ch.video_id, chunk_text := ch.chunk_text,
      similarity := env.simFn trendEmbedding ch.embedding }

/-- `getCandidateVideos` (server variant): empty-store early return,
chunk scoring, per-video aggregation, ranking by aggregate score
descending, truncation to `TOP_CANDIDATES_PER_TREND`. -/
def getCandidateVideos (env : Env) (trend : Trend) : List CandidateVideo :=
  if env.chunks.length = 0 then []
  else
    let chunkScores := chunkScoresOf env trend
    let candidates := (groupByVideo chunkScores).filterMap (candidateOfEntry env.videos)
    (List.insertionSort avgDesc candidates).take TOP_CANDIDATES_PER_TREND

/-- The progress events sent over the SSE stream by the
`/api/match-selected` handler; payloads are reduced to the fields the
spec's properties mention (counts, video titles, scores). -/
inductive MatchEvent where
  | start (selectedCount : ℕ) : MatchEvent
  | trendStart (title : String) : MatchEvent
  | youtube (found : ℕ) : MatchEvent
  | candidates (count : ℕ) : MatchEvent
  | accepted (video : String) (relevance support risk : ℚ) : MatchEvent
  | rejected (video : String) : MatchEvent
  | complete (totalEvaluations acceptedCount rejectedCount : ℕ) : MatchEvent
  deriving Repr, DecidableEq

/-- The mutable state of one `/api/match-selected` run: the
recommendations table (the only table the run writes), the two running
counters, and the emitted event stream. -/
structure RunState where
  db : List Recommendation
  totalEvaluations : ℕ
  acceptedCount : ℕ
  events : List MatchEvent
  deriving Repr, DecidableEq

/-- The Recommendation persisted for an accepted pair. -/
def mkRecommendation (t : Trend) (c : CandidateVideo) (e : LLMEvaluation) :
    Recommendation :=
  { trend_id := t.trend_id
    video_id := c.video.video_id
    semantic_relevance := e.semantic_relevance
    intro_support := e.intro_support
    honesty_risk := e.honesty_risk
    titles := jsonStringifyStrList e.titles
    thumbnails := jsonStringifyStrList e.thumbnails
    notes := e.notes }

/-- The single LLM evaluation issued for one candidate:
`candidate.topChunks.slice(0, TOP_CHUNKS_FOR_LLM)` is what is actually
sent to the model. -/
def candidateEvaluation (env : Env) (t : Trend) (c : CandidateVideo) : LLMEvaluation :=
  evaluateWithLLMServer env.repair
    (env.modelFn t c.video (c.topChunks.take TOP_CHUNKS_FOR_LLM))

/-- One iteration of the per-candidate loop (src/db.ts lines 505-564):
count the evaluation, apply the acceptance gate, persist and count on
accept, emit the accepted/rejected event. -/
def processCandidate (env : Env) (t : Trend) (s : RunState) (c : CandidateVideo) :
    RunState :=
  let s := { s with totalEvaluations := s.totalEvaluations + 1 }
  let e := candidateEvaluation env t c
  if acceptanceGate e then
    { s with acceptedCount := s.acceptedCount + 1
             db := s.db ++ [mkRecommendation t c e]
             events := s.events ++
               [MatchEvent.accepted c.video.title_current
                 e.semantic_relevance e.intro_support e.honesty_risk] }
  else
    { s with events := s.events ++ [MatchEvent.rejected c.video.title_current] }

/-- One iteration of the per-trend loop (src/db.ts lines 450-572): a
stale trend id is skipped silently (`if (!trend) continue`), then the
trend / youtube / candidates events are emitted and every candidate is
evaluated in order. -/
def processTrendId (env : Env) (s : RunState) (trendId : String) : RunState :=
  match getTrend env trendId with
  | none => s
  | some trend =>
    let s := { s with events := s.events ++
      [MatchEvent.trendStart trend.title, MatchEvent.youtube (env.ytFn trend).length] }
    let cands := getCandidateVideos env trend
    let s := { s with events := s.events ++ [MatchEvent.candidates cands.length] }
    cands.foldl (processCandidate env trend) s

/-- The `/api/match-selected` handler body (src/db.ts lines 421-591):
reject an empty selection without touching the store (the 400 path),
otherwise clear all existing recommendations, process every selected
trend id, and emit the final summary event with the rejected count
derived as `totalEvaluations - acceptedCount`. -/
def matchSelected (env : Env) (trendIds : List String) (db₀ : List Recommendation) :
    RunState :=
  if trendIds.isEmpty then
    { db := db₀, totalEvaluations := 0, acceptedCount := 0, events := [] }
  else
    let s₀ : RunState :=
      { db := [], totalEvaluations := 0, acceptedCount := 0,
        events := [MatchEvent.start trendIds.length] }
    let s := trendIds.foldl (processTrendId env) s₀
    { s with events := s.events ++
        [MatchEvent.complete s.totalEvaluations s.acceptedCount
          (s.totalEvaluations - s.acceptedCount)] }

/-! ## Cosine similarity (spec-modelled) -/

/-- Dot product of two vectors (truncating to the shorter length, as an
index-bounded loop would). -/
noncomputable def dotL (a b : List ℝ) : ℝ := (List.zipWith (· * ·) a b).sum

/-- Euclidean magnitude of a vector. -/
noncomputable def magnitudeL (a : List ℝ) : ℝ := Real.sqrt (dotL a a)

/-- Modelled from the spec: `src/embeddings.ts` (the `cosineSimilarity`
implementation) is absent from the provided source snapshot — only its
call sites are present.  Following §4.1 of the spec: the cosine of the
angle between the two vectors, "dot product divided by the product of
magnitudes; defined as 0 if either vector has zero magnitude". -/
noncomputable def cosineSimilarity (a b : List ℝ) : ℝ :=
  if magnitudeL a = 0 ∨ magnitudeL b = 0 then 0
  else dotL a b / (magnitudeL a * magnitudeL b)

/-! ## Helper lemmas about the acceptance gate and the orchestrator -/

/-- The acceptance conditions as a proposition. -/
def gatePassed (e : LLMEvaluation) : Prop :=
  e.allowed = true ∧ MIN_SEMANTIC_RELEVANCE ≤ e.semantic_relevance ∧
  MIN_INTRO_SUPPORT ≤ e.intro_support ∧ e.honesty_risk ≤ MAX_HONESTY_RISK

instance (e : LLMEvaluation) : Decidable (gatePassed e) := by
  unfold gatePassed
  infer_instance

theorem acceptanceGate_eq_true_iff (e : LLMEvaluation) :
    acceptanceGate e = true ↔ gatePassed e := by
  simp [acceptanceGate, gatePassed, Bool.and_eq_true, decide_eq_true_eq,
    ge_iff_le, and_assoc]

theorem processCandidate_db (env : Env) (t : Trend) (s : RunState) (c : CandidateVideo) :
    (processCandidate env t s c).db =
      if acceptanceGate (candidateEvaluation env t c) then
        s.db ++ [mkRecommendation t c (candidateEvaluation env t c)]
      else s.db := by
  by_cases h : acceptanceGate (candidateEvaluation env t c) = true
  · simp [processCandidate, h]
  · simp [processCandidate, h]

theorem processCandidate_total (env : Env) (t : Trend) (s : RunState) (c : CandidateVideo) :
    (processCandidate env t s c).totalEvaluations = s.totalEvaluations + 1 := by
  by_cases h : acceptanceGate (candidateEvaluation env t c) = true
  · simp [processCandidate, h]
  · simp [processCandidate, h]

theorem processCandidate_accepted (env : Env) (t : Trend) (s : RunState) (c : CandidateVideo) :
    (processCandidate env t s c).acceptedCount =
      if acceptanceGate (candidateEvaluation env t c) then s.acceptedCount + 1
      else s.acceptedCount := by
  by_cases h : acceptanceGate (candidateEvaluation env t c) = true
  · simp [processCandidate, h]
  · simp [processCandidate, h]

/-- A generic preservation principle for the folds of the embedding. -/
theorem foldl_preserve {α β : Type} (f : α → β → α) (P : α → Prop)
    (h : ∀ s b, P s → P (f s b)) :
    ∀ (l : List β) (s : α), P s → P (l.foldl f s)
  | [], _, hs => hs
  | b :: l, s, hs => foldl_preserve f P h l (f s b) (h s b hs)

theorem processCandidate_db_mem (env : Env) (t : Trend) (s : RunState)
    (c : CandidateVideo) (r : Recommendation)
    (h : r ∈ (processCandidate env t s c).db) :
    r ∈ s.db ∨ (r = mkRecommendation t c (candidateEvaluation env t c) ∧
      acceptanceGate (candidateEvaluation env t c) = true) := by
  rw [processCandidate_db] at h
  by_cases hg : acceptanceGate (candidateEvaluation env t c) = true
  · rw [if_pos hg] at h
    rcases List.mem_append.mp h with h' | h'
    · exact Or.inl h'
    · exact Or.inr ⟨List.mem_singleton.mp h', hg⟩
  · rw [if_neg hg] at h
    exact Or.inl h

theorem foldl_processCandidate_db_mem (env : Env) (t : Trend) :
    ∀ (cands : List CandidateVideo) (s : RunState) (r : Recommendation),
      r ∈ (cands.foldl (processCandidate env t) s).db →
      r ∈ s.db ∨ ∃ c ∈ cands, r = mkRecommendation t c (candidateEvaluation env t c) ∧
        acceptanceGate (candidateEvaluation env t c) = true
  | [], _, _, h => Or.inl h
  | c :: cands, s, r, h => by
    rcases foldl_processCandidate_db_mem env t cands (processCandidate env t s c) r h with
      h' | ⟨c', hc', hr⟩
    · rcases processCandidate_db_mem env t s c r h' with h'' | h''
      · exact Or.inl h''
      · exact Or.inr ⟨c, List.mem_cons_self c cands, h''⟩
    · exact Or.inr ⟨c', List.mem_cons_of_mem c hc', hr⟩

theorem getTrend_mem (env : Env) (trendId : String) (t : Trend)
    (h : getTrend env trendId = some t) : t ∈ env.trends :=
  List.mem_of_find?_eq_some h

theorem processTrendId_db_mem (env : Env) (s : RunState) (trendId : String)
    (r : Recommendation) (h : r ∈ (processTrendId env s trendId).db) :
    r ∈ s.db ∨ ∃ t, t ∈ env.trends ∧ ∃ c ∈ getCandidateVideos env t,
      r = mkRecommendation t c (candidateEvaluation env t c) ∧
      acceptanceGate (candidateEvaluation env t c) = true := by
  unfold processTrendId at h
  cases hg : getTrend env trendId with
  | none => rw [hg] at h; exact Or.inl h
  | some t =>
    rw [hg] at h
    rcases foldl_processCandidate_db_mem env t _ _ r h with h' | ⟨c, hc, hr⟩
    · exact Or.inl h'
    · exact Or.inr ⟨t, getTrend_mem env trendId t hg, c, hc, hr⟩

theorem foldl_processTrendId_db_mem (env : Env) :
    ∀ (ids : List String) (s : RunState) (r : Recommendation),
      r ∈ (ids.foldl (processTrendId env) s).db →
      r ∈ s.db ∨ ∃ t, t ∈ env.trends ∧ ∃ c ∈ getCandidateVideos env t,
        r = mkRecommendation t c (candidateEvaluation env t c) ∧
        acceptanceGate (candidateEvaluation env t c) = true
  | [], _, _, h => Or.inl h
  | i :: ids, s, r, h => by
    rcases foldl_processTrendId_db_mem env ids (processTrendId env s i) r h with h' | h'
    · rcases processTrendId_db_mem env s i r h' with h'' | h''
      · exact Or.inl h''
      · exact Or.inr h''
    · exact Or.inr h'

theorem matchSelected_db_mem (env : Env) (ids : List String) (db₀ : List Recommendation)
    (r : Recommendation) (h : r ∈ (matchSelected env ids db₀).db) (hne : ids ≠ []) :
    ∃ t, t ∈ env.trends ∧ ∃ c ∈ getCandidateVideos env t,
      r = mkRecommendation t c (candidateEvaluation env t c) ∧
      acceptanceGate (candidateEvaluation env t c) = true := by
  unfold matchSelected at h
  rw [if_neg (by simpa using hne)] at h
  simp only [] at h
  rcases foldl_processTrendId_db_mem env ids _ r h with h' | h'
  · simp at h'
  · exact h'

/-! ## Claim C1 -/

/-- C1 — Acceptance gate: an evaluated (trend, candidate) pair is
accepted — its Recommendation appended to the store and the accepted
counter incremented — exactly when `allowed`, both 0.65 lower thresholds
and the 0.30 upper threshold all hold; on failure of any condition the
state is unchanged except the rejected event; and every Recommendation
in the store after a run passed all thresholds. -/
theorem acceptance_gate_iff_all_four :
    (MIN_SEMANTIC_RELEVANCE = 65/100 ∧ MIN_INTRO_SUPPORT = 65/100 ∧
      MAX_HONESTY_RISK = 30/100) ∧
    (∀ (env : Env) (t : Trend) (s : RunState) (c : CandidateVideo),
      (acceptanceGate (candidateEvaluation env t c) = true ↔
        gatePassed (candidateEvaluation env t c)) ∧
      (gatePassed (candidateEvaluation env t c) →
        (processCandidate env t s c).db =
          s.db ++ [mkRecommendation t c (candidateEvaluation env t c)] ∧
        (processCandidate env t s c).acceptedCount = s.acceptedCount + 1) ∧
      (¬ gatePassed (candidateEvaluation env t c) →
        (processCandidate env t s c).db = s.db ∧
        (processCandidate env t s c).acceptedCount = s.acceptedCount)) ∧
    (∀ (env : Env) (ids : List String) (db₀ : List Recommendation) (r : Recommendation),
      r ∈ (matchSelected env ids db₀).db → ids ≠ [] →
      MIN_SEMANTIC_RELEVANCE ≤ r.semantic_relevance ∧
      MIN_INTRO_SUPPORT ≤ r.intro_support ∧ r.honesty_risk ≤ MAX_HONESTY_RISK) := by
  refine ⟨⟨MIN_SEMANTIC_RELEVANCE_eq, MIN_INTRO_SUPPORT_eq, MAX_HONESTY_RISK_eq⟩, ?_, ?_⟩
  · intro env t s c
    refine ⟨acceptanceGate_eq_true_iff _, ?_, ?_⟩
    · intro hg
      have hb : acceptanceGate (candidateEvaluation env t c) = true :=
        (acceptanceGate_eq_true_iff _).mpr hg
      rw [processCandidate_db, processCandidate_accepted, if_pos hb, if_pos hb]
      exact ⟨rfl, rfl⟩
    · intro hg
      have hb : acceptanceGate (candidateEvaluation env t c) ≠ true := fun h =>
        hg ((acceptanceGate_eq_true_iff _).mp h)
      rw [processCandidate_db, processCandidate_accepted, if_neg hb, if_neg hb]
      exact ⟨rfl, rfl⟩
  · intro env ids db₀ r hr hne
    obtain ⟨t, _, c, _, hrec, hgate⟩ := matchSelected_db_mem env ids db₀ r hr hne
    obtain ⟨_, h1, h2, h3⟩ := (acceptanceGate_eq_true_iff _).mp hgate
    subst hrec
    exact ⟨h1, h2, h3⟩

/-! ## Concrete sample fixtures used by the witnesses -/

def tSample : Trend :=
  { trend_id := "trend-1", title := "AI layoffs", summary := "tech jobs",
    keywords := "ai", source := "google_news", created_at := "2026-01-01" }

def vSample : Video :=
  { video_id := "vid-1", title_current := "MBA worth it", transcript_full := "t",
    transcript_intro := "intro", published_at := "2024-01-01", url := "u" }

def chSample : VideoChunk :=
  { video_id := "vid-1", chunk_id := 0, chunk_text := "chunk text",
    embedding := [qOfNat 1] }

/-- A well-formed model response passing validation and the gate. -/
def goodJson : String :=
  "\x7b\"semantic_relevance\":0.8,\"intro_support\":0.7,\"honesty_risk\":0.1," ++
  "\"allowed\":true,\"titles\":[\"A\"],\"thumbnails\":[\"B\"],\"notes\":\"ok\"\x7d"

def sampleEnv : Env :=
  { trends := [tSample], videos := [vSample], chunks := [chSample],
    embedFn := fun _ => [qOfNat 1], simFn := fun _ _ => qOfNat 1,
    modelFn := fun _ _ _ => Except.ok (some goodJson),
    repair := fun s => s, ytFn := fun _ => [] }

def sampleCand : CandidateVideo :=
  { video := vSample, avgSimilarity := qOfNat 1, topChunks := ["chunk text"] }

def sZero : RunState := { db := [], totalEvaluations := 0, acceptedCount := 0, events := [] }

set_option maxRecDepth 100000 in
/-- Witness for C1 at a concrete accepted run. -/
theorem acceptance_gate_iff_all_four_witness :
    gatePassed (candidateEvaluation sampleEnv tSample sampleCand) ∧
    ((processCandidate sampleEnv tSample sZero sampleCand).db =
        sZero.db ++ [mkRecommendation tSample sampleCand
          (candidateEvaluation sampleEnv tSample sampleCand)] ∧
      (processCandidate sampleEnv tSample sZero sampleCand).acceptedCount =
        sZero.acceptedCount + 1) ∧
    (MIN_SEMANTIC_RELEVANCE ≤
        (mkRecommendation tSample sampleCand
          (candidateEvaluation sampleEnv tSample sampleCand)).semantic_relevance ∧
      MIN_INTRO_SUPPORT ≤
        (mkRecommendation tSample sampleCand
          (candidateEvaluation sampleEnv tSample sampleCand)).intro_support ∧
      (mkRecommendation tSample sampleCand
          (candidateEvaluation sampleEnv tSample sampleCand)).honesty_risk ≤
        MAX_HONESTY_RISK) :=
  ⟨by decide,
   (acceptance_gate_iff_all_four.2.1 sampleEnv tSample sZero sampleCand).2.1 (by decide),
   acceptance_gate_iff_all_four.2.2 sampleEnv ["trend-1"] []
     (mkRecommendation tSample sampleCand
       (candidateEvaluation sampleEnv tSample sampleCand))
     (by decide) (by decide)⟩

/-! ## Counter and event-stream lemmas (claims C5, C7) -/

/-- An event other than the final summary event. -/
def notComplete (e : MatchEvent) : Prop :=
  ∀ T A R : ℕ, e ≠ MatchEvent.complete T A R

theorem processCandidate_events (env : Env) (t : Trend) (s : RunState) (c : CandidateVideo) :
    (processCandidate env t s c).events =
      s.events ++ [if acceptanceGate (candidateEvaluation env t c) then
        MatchEvent.accepted c.video.title_current
          (candidateEvaluation env t c).semantic_relevance
          (candidateEvaluation env t c).intro_support
          (candidateEvaluation env t c).honesty_risk
      else MatchEvent.rejected c.video.title_current] := by
  by_cases h : acceptanceGate (candidateEvaluation env t c) = true
  · simp [processCandidate, h]
  · simp [processCandidate, h]

theorem foldl_processCandidate_events_ext (env : Env) (t : Trend) :
    ∀ (cands : List CandidateVideo) (s : RunState),
      ∃ δ, (cands.foldl (processCandidate env t) s).events = s.events ++ δ ∧
        ∀ e ∈ δ, notComplete e
  | [], s => ⟨[], by simp⟩
  | c :: cands, s => by
    obtain ⟨δ, hδ, hnc⟩ :=
      foldl_processCandidate_events_ext env t cands (processCandidate env t s c)
    refine ⟨(if acceptanceGate (candidateEvaluation env t c) then
        MatchEvent.accepted c.video.title_current
          (candidateEvaluation env t c).semantic_relevance
          (candidateEvaluation env t c).intro_support
          (candidateEvaluation env t c).honesty_risk
      else MatchEvent.rejected c.video.title_current) :: δ, ?_, ?_⟩
    · rw [List.foldl_cons, hδ, processCandidate_events]
      simp
    · intro e he
      rcases List.mem_cons.mp he with he | he
      · subst he
        split <;> intro T A R <;> simp
      · exact hnc e he

theorem processTrendId_events_ext (env : Env) (s : RunState) (trendId : String) :
    ∃ δ, (processTrendId env s trendId).events = s.events ++ δ ∧
      ∀ e ∈ δ, notComplete e := by
  unfold processTrendId
  cases hg : getTrend env trendId with
  | none => exact ⟨[], by simp⟩
  | some t =>
    obtain ⟨δ, hδ, hnc⟩ := foldl_processCandidate_events_ext env t
      (getCandidateVideos env t)
      { s with events := (s.events ++
          [MatchEvent.trendStart t.title, MatchEvent.youtube (env.ytFn t).length]) ++
          [MatchEvent.candidates (getCandidateVideos env t).length] }
    refine ⟨[MatchEvent.trendStart t.title, MatchEvent.youtube (env.ytFn t).length,
      MatchEvent.candidates (getCandidateVideos env t).length] ++ δ, ?_, ?_⟩
    · rw [hδ]
      simp
    · intro e he
      rcases List.mem_append.mp he with he | he
      · fin_cases he <;> (intro T A R; simp)
      · exact hnc e he

theorem foldl_processTrendId_events_ext (env : Env) :
    ∀ (ids : List String) (s : RunState),
      ∃ δ, (ids.foldl (processTrendId env) s).events = s.events ++ δ ∧
        ∀ e ∈ δ, notComplete e
  | [], s => ⟨[], by simp⟩
  | i :: ids, s => by
    obtain ⟨δ₁, hδ₁, hnc₁⟩ := processTrendId_events_ext env s i
    obtain ⟨δ₂, hδ₂, hnc₂⟩ :=
      foldl_processTrendId_events_ext env ids (processTrendId env s i)
    refine ⟨δ₁ ++ δ₂, ?_, ?_⟩
    · rw [List.foldl_cons, hδ₂, hδ₁, List.append_assoc]
    · intro e he
      rcases List.mem_append.mp he with he | he
      · exact hnc₁ e he
      · exact hnc₂ e he

theorem processCandidate_counter_invariant (env : Env) (t : Trend) (s : RunState)
    (c : CandidateVideo) (h : s.acceptedCount ≤ s.totalEvaluations) :
    (processCandidate env t s c).acceptedCount ≤
      (processCandidate env t s c).totalEvaluations := by
  rw [processCandidate_accepted, processCandidate_total]
  split <;> omega

theorem processTrendId_counter_invariant (env : Env) (s : RunState) (trendId : String)
    (h : s.acceptedCount ≤ s.totalEvaluations) :
    (processTrendId env s trendId).acceptedCount ≤
      (processTrendId env s trendId).totalEvaluations := by
  unfold processTrendId
  cases hg : getTrend env trendId with
  | none => exact h
  | some t =>
    dsimp only
    exact foldl_preserve (processCandidate env t)
      (fun s => s.acceptedCount ≤ s.totalEvaluations)
      (fun s c hs => processCandidate_counter_invariant env t s c hs) _ _ h

theorem matchSelected_counter_invariant (env : Env) (ids : List String)
    (db₀ : List Recommendation) :
    (matchSelected env ids db₀).acceptedCount ≤
      (matchSelected env ids db₀).totalEvaluations := by
  unfold matchSelected
  by_cases h : ids.isEmpty
  · rw [if_pos h]
  · rw [if_neg h]
    dsimp only
    exact foldl_preserve (processTrendId env)
      (fun s => s.acceptedCount ≤ s.totalEvaluations)
      (fun s i hs => processTrendId_counter_invariant env s i hs) ids _ (by simp)

/-! ## Claim C5 -/

/-- C5 — Counter invariant: every candidate loop iteration increments
the evaluation counter exactly once and the accepted counter at most
once; the accepted counter never exceeds the evaluation counter; the
run's final `complete` event reports the rejected count as the derived
difference `totalEvaluations - acceptedCount`, and every `complete`
event of the run satisfies `accepted + rejected == total`. -/
theorem counters_accepted_plus_rejected (env : Env) (ids : List String)
    (db₀ : List Recommendation) (hne : ids ≠ []) :
    (∀ (t : Trend) (s : RunState) (c : CandidateVideo),
      (processCandidate env t s c).totalEvaluations = s.totalEvaluations + 1 ∧
      ((processCandidate env t s c).acceptedCount = s.acceptedCount ∨
        (processCandidate env t s c).acceptedCount = s.acceptedCount + 1)) ∧
    (matchSelected env ids db₀).acceptedCount ≤
      (matchSelected env ids db₀).totalEvaluations ∧
    (∃ pre, (matchSelected env ids db₀).events = pre ++
      [MatchEvent.complete (matchSelected env ids db₀).totalEvaluations
        (matchSelected env ids db₀).acceptedCount
        ((matchSelected env ids db₀).totalEvaluations -
          (matchSelected env ids db₀).acceptedCount)]) ∧
    (∀ T A R, MatchEvent.complete T A R ∈ (matchSelected env ids db₀).events →
      A + R = T) := by
  have hinv := matchSelected_counter_invariant env ids db₀
  refine ⟨?_, hinv, ?_, ?_⟩
  · intro t s c
    refine ⟨processCandidate_total env t s c, ?_⟩
    rw [processCandidate_accepted]
    split
    · exact Or.inr rfl
    · exact Or.inl rfl
  · unfold matchSelected at *
    rw [if_neg (by simpa using hne)] at *
    exact ⟨_, rfl⟩
  · intro T A R hmem
    unfold matchSelected at hmem hinv
    rw [if_neg (by simpa using hne)] at hmem hinv
    simp only [] at hmem hinv
    obtain ⟨δ, hδ, hnc⟩ := foldl_processTrendId_events_ext env ids
      { db := [], totalEvaluations := 0, acceptedCount := 0,
        events := [MatchEvent.start ids.length] }
    rw [hδ] at hmem
    simp only [List.mem_append] at hmem
    rcases hmem with (hmem | hmem) | hmem
    · simp at hmem
    · exact absurd rfl (hnc _ hmem T A R)
    · rw [List.mem_singleton] at hmem
      injection hmem with h1 h2 h3
      omega

/-- Witness for C5 on a concrete run. -/
theorem counters_accepted_plus_rejected_witness :
    (matchSelected sampleEnv ["trend-1"] []).acceptedCount ≤
      (matchSelected sampleEnv ["trend-1"] []).totalEvaluations ∧
    (∀ T A R, MatchEvent.complete T A R ∈ (matchSelected sampleEnv ["trend-1"] []).events →
      A + R = T) :=
  ⟨(counters_accepted_plus_rejected sampleEnv ["trend-1"] [] (by decide)).2.1,
   (counters_accepted_plus_rejected sampleEnv ["trend-1"] [] (by decide)).2.2.2⟩

/-! ## Claim C6 -/

/-- C6 — Snapshot idempotence: a run with a nonempty selection is
entirely independent of the prior contents of the Recommendation table
(which it clears before processing any trend), so running the
orchestrator twice with the same environment yields the same state, and
after the second run the table holds exactly the second run's output
with no stale rows from the first. -/
theorem snapshot_idempotence (env : Env) (ids : List String)
    (db₀ db₁ : List Recommendation) (hne : ids ≠ []) :
    matchSelected env ids db₀ = matchSelected env ids db₁ ∧
    (matchSelected env ids (matchSelected env ids db₀).db).db =
      (matchSelected env ids db₀).db := by
  have hkey : ∀ dbA dbB, matchSelected env ids dbA = matchSelected env ids dbB := by
    intro dbA dbB
    unfold matchSelected
    rw [if_neg (by simpa using hne), if_neg (by simpa using hne)]
  exact ⟨hkey db₀ db₁, by rw [hkey (matchSelected env ids db₀).db db₀]⟩

/-- Witness for C6 on a concrete run. -/
theorem snapshot_idempotence_witness :
    matchSelected sampleEnv ["trend-1"]
      [mkRecommendation tSample sampleCand (conservativeRejection "stale")] =
      matchSelected sampleEnv ["trend-1"] [] ∧
    (matchSelected sampleEnv ["trend-1"]
        (matchSelected sampleEnv ["trend-1"]
          [mkRecommendation tSample sampleCand (conservativeRejection "stale")]).db).db =
      (matchSelected sampleEnv ["trend-1"]
        [mkRecommendation tSample sampleCand (conservativeRejection "stale")]).db :=
  snapshot_idempotence sampleEnv ["trend-1"]
    [mkRecommendation tSample sampleCand (conservativeRejection "stale")] []
    (by decide)

/-! ## Claim C7 -/

theorem getCandidateVideos_empty (env : Env) (t : Trend) (h : env.chunks = []) :
    getCandidateVideos env t = [] := by
  unfold getCandidateVideos
  rw [if_pos (by rw [h]; rfl)]

theorem processTrendId_empty_chunks (env : Env) (h : env.chunks = [])
    (s : RunState) (i : String) :
    (processTrendId env s i).totalEvaluations = s.totalEvaluations ∧
    (processTrendId env s i).acceptedCount = s.acceptedCount ∧
    (processTrendId env s i).db = s.db ∧
    ∃ δ, (processTrendId env s i).events = s.events ++ δ ∧
      (∀ n, MatchEvent.candidates n ∈ δ → n = 0) := by
  unfold processTrendId
  cases hg : getTrend env i with
  | none => exact ⟨rfl, rfl, rfl, [], by simp, by simp⟩
  | some t =>
    dsimp only
    rw [getCandidateVideos_empty env t h]
    simp only [List.foldl_nil]
    refine ⟨by trivial, by trivial, by trivial, ?_⟩
    refine ⟨[MatchEvent.trendStart t.title, MatchEvent.youtube (env.ytFn t).length,
      MatchEvent.candidates 0], by simp, ?_⟩
    intro n hn
    simp only [List.mem_cons, List.mem_singleton] at hn
    rcases hn with h' | h' | h' | h' <;> simp_all

/-- C7 — Empty-corpus safety: when the chunk store is empty, every
trend's candidate list is empty (the explicit early return; no division
by zero can occur since a per-video score group is only ever created
from an existing chunk score), every `candidates` progress event of the
run reports zero candidates, no evaluation is issued and nothing is
persisted. -/
theorem empty_corpus_safety (env : Env) (h : env.chunks = []) :
    (∀ t, getCandidateVideos env t = []) ∧
    (∀ (ids : List String) (db₀ : List Recommendation), ids ≠ [] →
      (matchSelected env ids db₀).totalEvaluations = 0 ∧
      (matchSelected env ids db₀).db = [] ∧
      (∀ n, MatchEvent.candidates n ∈ (matchSelected env ids db₀).events → n = 0)) := by
  refine ⟨fun t => getCandidateVideos_empty env t h, ?_⟩
  intro ids db₀ hne
  have key : ∀ (s : RunState),
      s.totalEvaluations = 0 ∧ s.db = [] ∧
        (∀ n, MatchEvent.candidates n ∈ s.events → n = 0) →
      (ids.foldl (processTrendId env) s).totalEvaluations = 0 ∧
        (ids.foldl (processTrendId env) s).db = [] ∧
        (∀ n, MatchEvent.candidates n ∈ (ids.foldl (processTrendId env) s).events →
          n = 0) := by
    refine fun s hs => foldl_preserve (processTrendId env)
      (fun s => s.totalEvaluations = 0 ∧ s.db = [] ∧
        (∀ n, MatchEvent.candidates n ∈ s.events → n = 0)) ?_ ids s hs
    intro s' i hs'
    obtain ⟨h1, _, h3, δ, h4, h5⟩ := processTrendId_empty_chunks env h s' i
    refine ⟨h1.trans hs'.1, h3.trans hs'.2.1, ?_⟩
    intro n hn
    rw [h4] at hn
    rcases List.mem_append.mp hn with hn | hn
    · exact hs'.2.2 n hn
    · exact h5 n hn
  unfold matchSelected
  rw [if_neg (by simpa using hne)]
  simp only []
  obtain ⟨k1, k2, k3⟩ := key
    { db := [], totalEvaluations := 0, acceptedCount := 0,
      events := [MatchEvent.start ids.length] }
    ⟨rfl, rfl, by simp⟩
  refine ⟨k1, k2, ?_⟩
  intro n hn
  rcases List.mem_append.mp hn with hn | hn
  · exact k3 n hn
  · simp at hn

/-- Witness for C7 on a concrete empty-chunk-store environment. -/
theorem empty_corpus_safety_witness :
    getCandidateVideos
      { sampleEnv with chunks := [] } tSample = [] ∧
    (matchSelected { sampleEnv with chunks := [] } ["trend-1"] []).totalEvaluations = 0 ∧
    (matchSelected { sampleEnv with chunks := [] } ["trend-1"] []).db = [] :=
  ⟨(empty_corpus_safety { sampleEnv with chunks := [] } rfl).1 tSample,
   ((empty_corpus_safety { sampleEnv with chunks := [] } rfl).2 ["trend-1"] []
      (by decide)).1,
   ((empty_corpus_safety { sampleEnv with chunks := [] } rfl).2 ["trend-1"] []
      (by decide)).2.1⟩

/-! ## Claim C8 -/

theorem mem_getCandidateVideos_video (env : Env) (t : Trend) (c : CandidateVideo)
    (h : c ∈ getCandidateVideos env t) : ∃ v ∈ env.videos, c.video = v := by
  unfold getCandidateVideos at h
  by_cases hc : env.chunks.length = 0
  · rw [if_pos hc] at h
    simp at h
  · rw [if_neg hc] at h
    simp only [] at h
    have h₁ : c ∈ List.insertionSort avgDesc
        ((groupByVideo (chunkScoresOf env t)).filterMap (candidateOfEntry env.videos)) :=
      List.mem_of_mem_take h
    have h₂ : c ∈ (groupByVideo (chunkScoresOf env t)).filterMap
        (candidateOfEntry env.videos) :=
      (List.perm_insertionSort avgDesc _).subset h₁
    obtain ⟨p, _, hp⟩ := List.mem_filterMap.mp h₂
    unfold candidateOfEntry at hp
    rcases hfind : env.videos.find? (fun v => v.video_id = p.1) with _ | v
    · rw [hfind] at hp
      simp at hp
    · rw [hfind] at hp
      simp only [Option.map_some'] at hp
      obtain rfl := (Option.some.injEq _ _).mp hp
      exact ⟨v, List.mem_of_find?_eq_some hfind, rfl⟩

/-- C8 — Referential integrity / skip-not-crash: a trend identifier
whose Trend record cannot be found is skipped without any effect on the
run state; every candidate's video exists in the corpus (a chunk whose
`video_id` has no matching Video is silently dropped from candidate
aggregation); and consequently every persisted Recommendation references
a trend and a video present in the corpus. -/
theorem referential_integrity (env : Env) :
    (∀ (s : RunState) (trendId : String), getTrend env trendId = none →
      processTrendId env s trendId = s) ∧
    (∀ (t : Trend) (c : CandidateVideo), c ∈ getCandidateVideos env t →
      ∃ v ∈ env.videos, c.video = v) ∧
    (∀ (ids : List String) (db₀ : List Recommendation) (r : Recommendation),
      r ∈ (matchSelected env ids db₀).db → ids ≠ [] →
      (∃ t ∈ env.trends, r.trend_id = t.trend_id) ∧
      (∃ v ∈ env.videos, r.video_id = v.video_id)) := by
  refine ⟨?_, mem_getCandidateVideos_video env, ?_⟩
  · intro s trendId h
    unfold processTrendId
    rw [h]
  · intro ids db₀ r hr hne
    obtain ⟨t, ht, c, hc, hrec, _⟩ := matchSelected_db_mem env ids db₀ r hr hne
    obtain ⟨v, hv, hcv⟩ := mem_getCandidateVideos_video env t c hc
    subst hrec
    exact ⟨⟨t, ht, rfl⟩, ⟨v, hv, by rw [mkRecommendation, hcv]⟩⟩

set_option maxRecDepth 100000 in
/-- Witness for C8: a stale trend id is a no-op, and the persisted
recommendation of a concrete run references the corpus. -/
theorem referential_integrity_witness :
    processTrendId sampleEnv sZero "no-such-trend" = sZero ∧
    ((∃ t ∈ sampleEnv.trends,
        (mkRecommendation tSample sampleCand
          (candidateEvaluation sampleEnv tSample sampleCand)).trend_id = t.trend_id) ∧
      (∃ v ∈ sampleEnv.videos,
        (mkRecommendation tSample sampleCand
          (candidateEvaluation sampleEnv tSample sampleCand)).video_id = v.video_id)) :=
  ⟨(referential_integrity sampleEnv).1 sZero "no-such-trend" (by decide),
   (referential_integrity sampleEnv).2.2 ["trend-1"] []
     (mkRecommendation tSample sampleCand
       (candidateEvaluation sampleEnv tSample sampleCand))
     (by decide) (by decide)⟩

/-! ## Claim C3 -/

/-- C3 — Conservative-rejection totality: the evaluation client is a
total function of the provider outcome; every failure path — transport
error, full cascade failure, or a parsed object failing the structure
validation — returns exactly the sentinel (scores `0, 0, 1`,
`allowed = false`, empty lists) with a notes field recording the
failure, the only non-sentinel result is a validated parsed evaluation,
and the sentinel is always rejected by the acceptance gate.  The CLI
variant degrades identically (with its fixed `'Evaluation failed'`
notes). -/
theorem conservative_rejection_totality :
    (∀ note, (conservativeRejection note).semantic_relevance = 0 ∧
      (conservativeRejection note).intro_support = 0 ∧
      (conservativeRejection note).honesty_risk = 1 ∧
      (conservativeRejection note).allowed = false ∧
      (conservativeRejection note).titles = [] ∧
      (conservativeRejection note).thumbnails = [] ∧
      (conservativeRejection note).notes = note) ∧
    (∀ (repair : String → String) (outcome : Except String (Option String)),
      (∀ e, outcome = Except.error e →
        evaluateWithLLMServer repair outcome =
          conservativeRejection ("Evaluation failed: " ++ e)) ∧
      (∀ c, outcome = Except.ok c → repairCascade repair (jsOrEmptyObj c) = none →
        evaluateWithLLMServer repair outcome =
          conservativeRejection ("JSON parse failed: " ++ jsParseErrorMessage)) ∧
      (∀ c j, outcome = Except.ok c → repairCascade repair (jsOrEmptyObj c) = some j →
        validEvaluation j = false →
        evaluateWithLLMServer repair outcome =
          conservativeRejection "Evaluation failed: Invalid LLM response structure") ∧
      ((∃ note, evaluateWithLLMServer repair outcome = conservativeRejection note) ∨
        (∃ c j, outcome = Except.ok c ∧ repairCascade repair (jsOrEmptyObj c) = some j ∧
          validEvaluation j = true ∧
          evaluateWithLLMServer repair outcome = evaluationOfJson j))) ∧
    (∀ outcome : Except String (Option String),
      (∃ note, evaluateWithLLMCli outcome = conservativeRejection note) ∨
        (∃ c j, outcome = Except.ok c ∧ jsonParse (jsOrEmptyObj c) = some j ∧
          validEvaluation j = true ∧ evaluateWithLLMCli outcome = evaluationOfJson j)) ∧
    (∀ note, acceptanceGate (conservativeRejection note) = false) := by
  refine ⟨?_, ?_, ?_, ?_⟩
  · intro note
    refine ⟨?_, ?_, ?_, rfl, rfl, rfl, rfl⟩
    · rw [conservativeRejection]
      simp [qOfNat_eq]
    · rw [conservativeRejection]
      simp [qOfNat_eq]
    · rw [conservativeRejection]
      simp [qOfNat_eq]
  · intro repair outcome
    refine ⟨?_, ?_, ?_, ?_⟩
    · rintro e rfl
      rfl
    · rintro c rfl hnone
      unfold evaluateWithLLMServer
      dsimp only
      rw [hnone]
    · rintro c j rfl hsome hinvalid
      unfold evaluateWithLLMServer
      dsimp only
      rw [hsome]
      dsimp only
      rw [if_neg (by simp [hinvalid])]
    · cases outcome with
      | error e => exact Or.inl ⟨"Evaluation failed: " ++ e, rfl⟩
      | ok c =>
        cases hcas : repairCascade repair (jsOrEmptyObj c) with
        | none =>
          refine Or.inl ⟨"JSON parse failed: " ++ jsParseErrorMessage, ?_⟩
          unfold evaluateWithLLMServer
          dsimp only
          rw [hcas]
        | some j =>
          by_cases hval : validEvaluation j = true
          · refine Or.inr ⟨c, j, rfl, hcas, hval, ?_⟩
            unfold evaluateWithLLMServer
            dsimp only
            rw [hcas]
            dsimp only
            rw [if_pos hval]
          · refine Or.inl ⟨"Evaluation failed: Invalid LLM response structure", ?_⟩
            unfold evaluateWithLLMServer
            dsimp only
            rw [hcas]
            dsimp only
            rw [if_neg hval]
  · intro outcome
    cases outcome with
    | error e => exact Or.inl ⟨"Evaluation failed", rfl⟩
    | ok c =>
      cases hp : jsonParse (jsOrEmptyObj c) with
      | none =>
        refine Or.inl ⟨"Evaluation failed", ?_⟩
        unfold evaluateWithLLMCli
        dsimp only
        rw [hp]
      | some j =>
        by_cases hval : validEvaluation j = true
        · refine Or.inr ⟨c, j, rfl, hp, hval, ?_⟩
          unfold evaluateWithLLMCli
          dsimp only
          rw [hp]
          dsimp only
          rw [if_pos hval]
        · refine Or.inl ⟨"Evaluation failed", ?_⟩
          unfold evaluateWithLLMCli
          dsimp only
          rw [hp]
          dsimp only
          rw [if_neg hval]
  · intro note
    rfl

/-- Witness for C3 at concrete failing outcomes. -/
theorem conservative_rejection_totality_witness :
    evaluateWithLLMServer (fun s => s) (Except.error "timeout") =
      conservativeRejection ("Evaluation failed: " ++ "timeout") ∧
    evaluateWithLLMServer (fun s => s) (Except.ok (some "total garbage")) =
      conservativeRejection ("JSON parse failed: " ++ jsParseErrorMessage) ∧
    evaluateWithLLMServer (fun s => s) (Except.ok (some "\x7b\"semantic_relevance\":\"high\"\x7d")) =
      conservativeRejection "Evaluation failed: Invalid LLM response structure" :=
  ⟨(conservative_rejection_totality.2.1 (fun s => s) (Except.error "timeout")).1
      "timeout" rfl,
   (conservative_rejection_totality.2.1 (fun s => s)
      (Except.ok (some "total garbage"))).2.1 (some "total garbage") rfl (by rfl),
   (conservative_rejection_totality.2.1 (fun s => s)
      (Except.ok (some "\x7b\"semantic_relevance\":\"high\"\x7d"))).2.2.1
      (some "\x7b\"semantic_relevance\":\"high\"\x7d")
      (Json.obj [("semantic_relevance", Json.str "high")]) rfl (by rfl) (by rfl)⟩

/-! ## Claim C2 -/

/-- The parsed value of `goodJson`. -/
def goodJsonVal : Json :=
  Json.obj [("semantic_relevance", Json.num (mkRat 4 5)),
    ("intro_support", Json.num (mkRat 7 10)),
    ("honesty_risk", Json.num (mkRat 1 10)),
    ("allowed", Json.bool true),
    ("titles", Json.arr [Json.str "A"]),
    ("thumbnails", Json.arr [Json.str "B"]),
    ("notes", Json.str "ok")]

/-- A valid model response wrapped in leading and trailing prose. -/
def prosyJson : String := "Sure! " ++ goodJson ++ " Hope this helps."

/-- A model response with a dangling unterminated string. -/
def danglingJson : String := "\x7b\"allowed\":false, \"notes\":\"untermina"

set_option maxRecDepth 100000 in
/-- Counterexample to C2 as stated: the claim's sources include the CLI
`evaluateWithLLM` (src/matcher.ts lines 256-292), which applies no
repair cascade — on a response whose inner braced substring parses to a
fully valid evaluation object it returns the conservative sentinel, not
the parsed inner object. -/
theorem repair_cascade_counterexample :
    jsonParse prosyJson = none ∧
    jsonParse (braceCleanup prosyJson) = some goodJsonVal ∧
    validEvaluation goodJsonVal = true ∧
    evaluateWithLLMCli (Except.ok (some prosyJson)) =
      conservativeRejection "Evaluation failed" ∧
    evaluateWithLLMCli (Except.ok (some prosyJson)) ≠ evaluationOfJson goodJsonVal :=
  ⟨by rfl, by rfl, by rfl, by rfl, by decide⟩

theorem jsOrEmptyObj_of_ne_empty (content : String) (h : content.isEmpty = false) :
    jsOrEmptyObj (some content) = content := by
  unfold jsOrEmptyObj
  dsimp only
  rw [h]
  rfl

/-- C2 (amended) — Repair cascade: the server Evaluation Client applies,
in order and stopping at the first success, (1) direct parse, (2) parse
of the brace-sliced substring, (3) parse after the generic repair pass,
and returns the parse-failure sentinel when all three fail; the CLI
variant applies only the direct parse and returns the sentinel whenever
it fails. -/
theorem repair_cascade_amended :
    (∀ (repair : String → String) (content : String),
      (∀ v, jsonParse content = some v → repairCascade repair content = some v) ∧
      (jsonParse content = none →
        ∀ v, jsonParse (braceCleanup content) = some v →
          repairCascade repair content = some v) ∧
      (jsonParse content = none → jsonParse (braceCleanup content) = none →
        repairCascade repair content = jsonParse (repair content)) ∧
      (content.isEmpty = false → repairCascade repair content = none →
        evaluateWithLLMServer repair (Except.ok (some content)) =
          conservativeRejection ("JSON parse failed: " ++ jsParseErrorMessage))) ∧
    (∀ content : String, content.isEmpty = false → jsonParse content = none →
      evaluateWithLLMCli (Except.ok (some content)) =
        conservativeRejection "Evaluation failed") := by
  constructor
  · intro repair content
    refine ⟨?_, ?_, ?_, ?_⟩
    · intro v hv
      unfold repairCascade
      rw [hv]
    · intro hnone v hv
      unfold repairCascade
      rw [hnone, hv]
    · intro hnone hbrace
      unfold repairCascade
      rw [hnone, hbrace]
    · intro hne hcas
      unfold evaluateWithLLMServer
      dsimp only
      rw [jsOrEmptyObj_of_ne_empty content hne, hcas]
  · intro content hne hp
    unfold evaluateWithLLMCli
    dsimp only
    rw [jsOrEmptyObj_of_ne_empty content hne, hp]

set_option maxRecDepth 100000 in
/-- Witness for C2 (amended) at the three scenario inputs: valid JSON,
prose-wrapped JSON, and an unterminated string repaired by the repair
pass; plus the all-fail sentinel. -/
theorem repair_cascade_amended_witness :
    repairCascade (fun s => s) goodJson = some goodJsonVal ∧
    repairCascade (fun s => s) prosyJson = some goodJsonVal ∧
    repairCascade (fun s => s ++ "\"\x7d") danglingJson =
      jsonParse (danglingJson ++ "\"\x7d") ∧
    evaluateWithLLMServer (fun s => s) (Except.ok (some "total garbage!")) =
      conservativeRejection ("JSON parse failed: " ++ jsParseErrorMessage) :=
  ⟨((repair_cascade_amended.1 (fun s => s) goodJson).1 goodJsonVal (by rfl)),
   ((repair_cascade_amended.1 (fun s => s) prosyJson).2.1 (by rfl) goodJsonVal (by rfl)),
   ((repair_cascade_amended.1 (fun s => s ++ "\"\x7d") danglingJson).2.2.1
      (by rfl) (by rfl)),
   ((repair_cascade_amended.1 (fun s => s) "total garbage!").2.2.2 (by rfl) (by rfl))⟩

/-! ## Characterization of the `videoScores` aggregation (claim C4) -/

/-- Lookup of a key in the insertion-ordered map model. -/
def lookupGroup (m : List (String × VideoScoreData)) (k : String) :
    Option VideoScoreData :=
  (m.find? (fun p => p.1 = k)).map Prod.snd

/-- The extension of one map entry by the chunk scores (for `k`) of a
suffix of the scan. -/
def extendGroup (o : Option VideoScoreData) (fl : List ChunkScore) :
    Option VideoScoreData :=
  match o, fl with
  | some d, fl => some { scores := d.scores ++ fl.map (·.similarity),
                         chunks := d.chunks ++ fl.map (fun s => (s.chunk_text, s.similarity)) }
  | none, [] => none
  | none, fl => some { scores := fl.map (·.similarity),
                       chunks := fl.map (fun s => (s.chunk_text, s.similarity)) }

theorem extendGroup_nil (o : Option VideoScoreData) : extendGroup o [] = o := by
  cases o <;> simp [extendGroup]

theorem lookupGroup_groupStep (m : List (String × VideoScoreData)) (s : ChunkScore)
    (k : String) :
    lookupGroup (groupStep m s) k =
      if s.video_id = k then
        match lookupGroup m k with
        | some d => some { scores := d.scores ++ [s.similarity],
                           chunks := d.chunks ++ [(s.chunk_text, s.similarity)] }
        | none => some { scores := [s.similarity],
                         chunks := [(s.chunk_text, s.similarity)] }
      else lookupGroup m k := by
  unfold groupStep lookupGroup
  by_cases hmem : (m.find? (fun p => p.1 = s.video_id)).isSome
  · rw [if_pos hmem]
    obtain ⟨p₀, hp₀⟩ := Option.isSome_iff_exists.mp hmem
    have hp₀key : p₀.1 = s.video_id := by
      have := List.find?_some hp₀
      simpa using this
    rw [List.find?_map]
    have hpred : ((fun p : String × VideoScoreData => decide (p.1 = k)) ∘
        (fun p => if p.1 = s.video_id then
          (p.1, VideoScoreData.mk (p.2.scores ++ [s.similarity])
            (p.2.chunks ++ [(s.chunk_text, s.similarity)]))
        else p)) = fun p : String × VideoScoreData => decide (p.1 = k) := by
      funext p
      by_cases hp : p.1 = s.video_id <;> simp [hp]
    rw [show (fun p : String × VideoScoreData => decide (p.1 = k)) ∘
        (fun p => if p.1 = s.video_id then
          (p.1, VideoScoreData.mk (p.2.scores ++ [s.similarity])
            (p.2.chunks ++ [(s.chunk_text, s.similarity)]))
        else p) = fun p : String × VideoScoreData => decide (p.1 = k) from hpred]
    by_cases hk : s.video_id = k
    · rw [if_pos hk]
      have : m.find? (fun p => decide (p.1 = k)) = some p₀ := by
        rw [← hk]
        exact hp₀
      rw [this]
      simp [hp₀key, hk]
    · rw [if_neg hk]
      cases hfind : m.find? (fun p => decide (p.1 = k)) with
      | none => rfl
      | some q =>
        have hqkey : q.1 = k := by
          have := List.find?_some hfind
          simpa using this
        have : ¬ q.1 = s.video_id := by
          rw [hqkey]
          intro hkv
          exact hk (hkv.symm)
        simp [this]
  · rw [if_neg hmem]
    have hnone : m.find? (fun p => p.1 = s.video_id) = none := by
      cases hf : m.find? (fun p => p.1 = s.video_id)
      · rfl
      · rw [hf] at hmem
        simp at hmem
    by_cases hk : s.video_id = k
    · have : m.find? (fun p : String × VideoScoreData => decide (p.1 = k)) = none := by
        rw [← hk]
        exact hnone
      rw [if_pos hk, List.find?_append, this]
      simp [hk]
    · rw [if_neg hk, List.find?_append]
      cases hfind : m.find? (fun p : String × VideoScoreData => decide (p.1 = k)) with
      | none =>
        have hsingle : ([(s.video_id, VideoScoreData.mk [s.similarity]
            [(s.chunk_text, s.similarity)])].find?
              (fun p : String × VideoScoreData => decide (p.1 = k))) = none := by
          rw [List.find?_cons_of_neg _ (by simpa using hk)]
          rfl
        rw [hsingle]
        rfl
      | some q => simp

theorem lookupGroup_foldl :
    ∀ (l : List ChunkScore) (m : List (String × VideoScoreData)) (k : String),
      lookupGroup (l.foldl groupStep m) k =
        extendGroup (lookupGroup m k) (l.filter (fun s => s.video_id = k))
  | [], m, k => by simp [extendGroup_nil]
  | s :: l, m, k => by
    rw [List.foldl_cons, lookupGroup_foldl l (groupStep m s) k, lookupGroup_groupStep]
    by_cases hk : s.video_id = k
    · rw [if_pos hk, List.filter_cons_of_pos (by simpa using hk)]
      cases ho : lookupGroup m k with
      | some d => simp [extendGroup]
      | none =>
        cases hl : l.filter (fun s => s.video_id = k) with
        | nil => simp [extendGroup]
        | cons x xs => simp [extendGroup]
    · rw [if_neg hk, List.filter_cons_of_neg (by simpa using hk)]

/-- The insertion-ordered map over the full scan: each entry holds
exactly the similarity scores and (text, score) pairs of the chunks of
its video, in scan order. -/
theorem lookupGroup_groupByVideo (l : List ChunkScore) (k : String) :
    lookupGroup (groupByVideo l) k =
      extendGroup none (l.filter (fun s => s.video_id = k)) := by
  unfold groupByVideo
  rw [lookupGroup_foldl]
  rfl

theorem groupStep_keys (m : List (String × VideoScoreData)) (s : ChunkScore) :
    (groupStep m s).map Prod.fst =
      if (m.find? (fun p => p.1 = s.video_id)).isSome then m.map Prod.fst
      else m.map Prod.fst ++ [s.video_id] := by
  unfold groupStep
  by_cases hmem : (m.find? (fun p => p.1 = s.video_id)).isSome
  · rw [if_pos hmem, if_pos hmem, List.map_map]
    congr 1
    funext p
    by_cases hp : p.1 = s.video_id <;> simp [hp]
  · rw [if_neg hmem, if_neg hmem]
    simp

theorem groupByVideo_keys_nodup (l : List ChunkScore) :
    ((groupByVideo l).map Prod.fst).Nodup := by
  unfold groupByVideo
  refine foldl_preserve groupStep (fun m => (m.map Prod.fst).Nodup) ?_ l [] (by simp)
  intro m s hm
  rw [groupStep_keys]
  by_cases hmem : (m.find? (fun p => p.1 = s.video_id)).isSome
  · rwa [if_pos hmem]
  · rw [if_neg hmem]
    have hnot : s.video_id ∉ m.map Prod.fst := by
      intro hin
      obtain ⟨p, hp, hpk⟩ := List.mem_map.mp hin
      have : m.find? (fun p => p.1 = s.video_id) ≠ none := by
        intro hf
        have := List.find?_eq_none.mp hf p hp
        simp [hpk] at this
      cases hf : m.find? (fun p => p.1 = s.video_id) with
      | none => exact absurd hf this
      | some q =>
        rw [hf] at hmem
        simp at hmem
    simp [List.nodup_append, hm, hnot]

theorem lookupGroup_of_mem (m : List (String × VideoScoreData))
    (hnd : (m.map Prod.fst).Nodup) (p : String × VideoScoreData) (hp : p ∈ m) :
    lookupGroup m p.1 = some p.2 := by
  induction m with
  | nil => simp at hp
  | cons q m ih =>
    rcases List.mem_cons.mp hp with rfl | hp'
    · unfold lookupGroup
      rw [List.find?_cons_of_pos _ (by simp)]
      rfl
    · have hq : q.1 ≠ p.1 := by
        intro hqp
        have : p.1 ∈ m.map Prod.fst := List.mem_map.mpr ⟨p, hp', rfl⟩
        rw [← hqp] at this
        exact (List.nodup_cons.mp hnd).1 this
      unfold lookupGroup
      rw [List.find?_cons_of_neg _ (by simpa using hq)]
      exact ih (List.nodup_cons.mp hnd).2 hp'

/-- Every entry of the aggregation map holds exactly its video's chunk
scores, in order, and is nonempty. -/
theorem mem_groupByVideo_spec (l : List ChunkScore) (p : String × VideoScoreData)
    (hp : p ∈ groupByVideo l) :
    p.2.scores = (l.filter (fun s => s.video_id = p.1)).map (·.similarity) ∧
    p.2.chunks = (l.filter (fun s => s.video_id = p.1)).map
      (fun s => (s.chunk_text, s.similarity)) ∧
    (l.filter (fun s => s.video_id = p.1)) ≠ [] := by
  have hlk := lookupGroup_of_mem (groupByVideo l) (groupByVideo_keys_nodup l) p hp
  rw [lookupGroup_groupByVideo] at hlk
  cases hl : l.filter (fun s => s.video_id = p.1) with
  | nil =>
    rw [hl] at hlk
    simp [extendGroup] at hlk
  | cons x xs =>
    rw [hl] at hlk
    simp only [extendGroup] at hlk
    have := (Option.some.injEq _ _).mp hlk
    rw [← this]
    exact ⟨rfl, rfl, by simp⟩

/-! ## Claim C4 -/

theorem foldl_qAdd_eq_sum : ∀ (l : List ℚ) (q : ℚ), l.foldl qAdd q = q + l.sum
  | [], q => by simp
  | x :: l, q => by
    rw [List.foldl_cons, foldl_qAdd_eq_sum l (qAdd q x), qAdd_eq, List.sum_cons]
    ring

theorem candidateOfEntry_eq_some (allVideos : List Video) (p : String × VideoScoreData)
    (c : CandidateVideo) (h : candidateOfEntry allVideos p = some c) :
    ∃ video, allVideos.find? (fun v => v.video_id = p.1) = some video ∧
      c = { video := video
            avgSimilarity := qDiv (p.2.scores.foldl qAdd (qOfNat 0)) (qOfNat p.2.scores.length)
            topChunks := ((List.insertionSort scoreDesc p.2.chunks).take 5).map Prod.fst } := by
  unfold candidateOfEntry at h
  cases hfind : allVideos.find? (fun v => v.video_id = p.1) with
  | none =>
    rw [hfind] at h
    simp at h
  | some video =>
    rw [hfind] at h
    simp only [Option.map_some'] at h
    exact ⟨video, rfl, ((Option.some.injEq _ _).mp h).symm⟩

theorem mem_getCandidateVideos_entry (env : Env) (t : Trend) (c : CandidateVideo)
    (h : c ∈ getCandidateVideos env t) :
    ∃ p ∈ groupByVideo (chunkScoresOf env t),
      candidateOfEntry env.videos p = some c ∧ c.video.video_id = p.1 := by
  unfold getCandidateVideos at h
  by_cases hc : env.chunks.length = 0
  · rw [if_pos hc] at h
    simp at h
  · rw [if_neg hc] at h
    simp only [] at h
    have h₂ : c ∈ (groupByVideo (chunkScoresOf env t)).filterMap
        (candidateOfEntry env.videos) :=
      (List.perm_insertionSort avgDesc _).subset (List.mem_of_mem_take h)
    obtain ⟨p, hp, hpc⟩ := List.mem_filterMap.mp h₂
    obtain ⟨video, hfind, hcval⟩ := candidateOfEntry_eq_some env.videos p c hpc
    refine ⟨p, hp, hpc, ?_⟩
    have := List.find?_some hfind
    rw [hcval]
    simp at this
    exact this

/-- C4 — Candidate retriever postcondition: at most 3 candidates are
returned, ranked by aggregate score descending; each candidate's
aggregate score is the arithmetic mean of its video's chunk similarity
scores, its attached chunks are the video's top-5 chunk texts by
individual score, and the per-candidate evaluation step is insensitive
to everything after the first `TOP_CHUNKS_FOR_LLM = 3` attached chunks
(only those are sent to the model). -/
theorem candidate_retriever_postcondition (env : Env) (t : Trend) :
    (getCandidateVideos env t).length ≤ TOP_CANDIDATES_PER_TREND ∧
    List.Sorted avgDesc (getCandidateVideos env t) ∧
    (∀ c ∈ getCandidateVideos env t,
      ((chunkScoresOf env t).filter (fun s => s.video_id = c.video.video_id)) ≠ [] ∧
      c.avgSimilarity =
        (((chunkScoresOf env t).filter (fun s => s.video_id = c.video.video_id)).map
          (fun s => s.similarity)).sum /
        ((((chunkScoresOf env t).filter (fun s => s.video_id = c.video.video_id)).map
          (fun s => s.similarity)).length : ℚ) ∧
      c.topChunks =
        ((List.insertionSort scoreDesc
          (((chunkScoresOf env t).filter (fun s => s.video_id = c.video.video_id)).map
            (fun s => (s.chunk_text, s.similarity)))).take 5).map Prod.fst) ∧
    (∀ (s : RunState) (c : CandidateVideo),
      processCandidate env t s c =
        processCandidate env t s { c with topChunks := c.topChunks.take TOP_CHUNKS_FOR_LLM }) := by
  refine ⟨?_, ?_, ?_, ?_⟩
  · unfold getCandidateVideos
    by_cases hc : env.chunks.length = 0
    · rw [if_pos hc]
      simp [TOP_CANDIDATES_PER_TREND]
    · rw [if_neg hc]
      simp only []
      exact le_trans (List.length_take_le _ _) (le_refl _)
  · unfold getCandidateVideos
    by_cases hc : env.chunks.length = 0
    · rw [if_pos hc]
      simp
    · rw [if_neg hc]
      simp only []
      exact List.Pairwise.sublist (List.take_sublist _ _)
        (List.sorted_insertionSort avgDesc _)
  · intro c hcmem
    obtain ⟨p, hp, hpc, hkey⟩ := mem_getCandidateVideos_entry env t c hcmem
    obtain ⟨video, hfind, hcval⟩ := candidateOfEntry_eq_some env.videos p c hpc
    obtain ⟨hscores, hchunks, hne⟩ := mem_groupByVideo_spec (chunkScoresOf env t) p hp
    rw [hkey]
    refine ⟨hne, ?_, ?_⟩
    · rw [hcval]
      simp only []
      rw [foldl_qAdd_eq_sum, qDiv_eq, qOfNat_eq, qOfNat_eq, hscores]
      simp
    · rw [hcval]
      simp only []
      rw [hchunks]
  · intro s c
    have he : candidateEvaluation env t
        { c with topChunks := c.topChunks.take TOP_CHUNKS_FOR_LLM } =
        candidateEvaluation env t c := by
      unfold candidateEvaluation
      simp only []
      rw [List.take_take, min_self]
    unfold processCandidate
    rw [he]
    by_cases hg : acceptanceGate (candidateEvaluation env t c) = true <;>
      simp [hg, mkRecommendation]

def retrievedCand : CandidateVideo :=
  { video := vSample, avgSimilarity := mkRat 1 1, topChunks := ["chunk text"] }

set_option maxRecDepth 100000 in
/-- Witness for C4 on the concrete sample corpus. -/
theorem candidate_retriever_postcondition_witness :
    ((chunkScoresOf sampleEnv tSample).filter
      (fun s => s.video_id = retrievedCand.video.video_id)) ≠ [] ∧
    retrievedCand.topChunks =
      ((List.insertionSort scoreDesc
        (((chunkScoresOf sampleEnv tSample).filter
          (fun s => s.video_id = retrievedCand.video.video_id)).map
          (fun s => (s.chunk_text, s.similarity)))).take 5).map Prod.fst :=
  ⟨(((candidate_retriever_postcondition sampleEnv tSample).2.2.1 retrievedCand
      (by decide))).1,
   (((candidate_retriever_postcondition sampleEnv tSample).2.2.1 retrievedCand
      (by decide))).2.2⟩

/-! ## Claim C9 -/

theorem dotL_nil_left (b : List ℝ) : dotL [] b = 0 := by simp [dotL]

theorem dotL_nil_right (a : List ℝ) : dotL a [] = 0 := by
  cases a <;> simp [dotL]

theorem dotL_cons (x y : ℝ) (a b : List ℝ) :
    dotL (x :: a) (y :: b) = x * y + dotL a b := by
  simp [dotL]

theorem dotL_self_nonneg (a : List ℝ) : 0 ≤ dotL a a := by
  induction a with
  | nil => simp [dotL]
  | cons x a ih =>
    rw [dotL_cons]
    nlinarith [sq_nonneg x]

theorem dotL_comm : ∀ (a b : List ℝ), dotL a b = dotL b a
  | [], b => by rw [dotL_nil_left, dotL_nil_right]
  | a, [] => by rw [dotL_nil_left, dotL_nil_right]
  | x :: a, y :: b => by
    rw [dotL_cons, dotL_cons, dotL_comm a b, mul_comm]

theorem dotL_self_eq_zero_all (a : List ℝ) (h : dotL a a = 0) : ∀ x ∈ a, x = 0 := by
  induction a with
  | nil => simp
  | cons x a ih =>
    rw [dotL_cons] at h
    have hx2 : 0 ≤ x * x := mul_self_nonneg x
    have hrest := dotL_self_nonneg a
    have hx : x * x = 0 := by linarith
    have hd : dotL a a = 0 := by linarith
    intro y hy
    rcases List.mem_cons.mp hy with rfl | hy'
    · exact mul_self_eq_zero.mp hx
    · exact ih hd y hy'

theorem dotL_zero_left : ∀ (a b : List ℝ), (∀ x ∈ a, x = 0) → dotL a b = 0
  | [], b, _ => dotL_nil_left b
  | a, [], _ => dotL_nil_right a
  | x :: a, y :: b, h => by
    rw [dotL_cons, h x (List.mem_cons_self x a), dotL_zero_left a b
      (fun z hz => h z (List.mem_cons_of_mem x hz))]
    ring

theorem magnitudeL_nonneg (a : List ℝ) : 0 ≤ magnitudeL a := Real.sqrt_nonneg _

theorem magnitudeL_eq_zero_iff (a : List ℝ) : magnitudeL a = 0 ↔ dotL a a = 0 := by
  unfold magnitudeL
  exact Real.sqrt_eq_zero (dotL_self_nonneg a)

theorem cauchy_schwarz_dotL : ∀ (a b : List ℝ),
    (dotL a b) ^ 2 ≤ dotL a a * dotL b b
  | [], b => by
    rw [dotL_nil_left, dotL_nil_left]
    simp [dotL_self_nonneg b]
  | a, [] => by
    rw [dotL_nil_right, dotL_nil_right]
    simp [dotL_self_nonneg a]
  | x :: a, y :: b => by
    rw [dotL_cons, dotL_cons, dotL_cons]
    have hIH := cauchy_schwarz_dotL a b
    have hA := dotL_self_nonneg a
    have hB := dotL_self_nonneg b
    set d := dotL a b
    set A := dotL a a
    set B := dotL b b
    rcases eq_or_lt_of_le hB with hB0 | hBpos
    · have hd : d = 0 := by nlinarith [sq_nonneg d]
      rw [hd]
      nlinarith [sq_nonneg x, sq_nonneg y, mul_nonneg hA (sq_nonneg y)]
    · have key : 2*(x*y)*d ≤ x^2*B + y^2*A := by
        have h1 : 0 ≤ (x*B - y*d)^2 := sq_nonneg _
        have h2 : y^2*d^2 ≤ y^2*(A*B) := by nlinarith [sq_nonneg y]
        nlinarith [hBpos, mul_pos hBpos hBpos]
      nlinarith

theorem abs_dotL_le (a b : List ℝ) : |dotL a b| ≤ magnitudeL a * magnitudeL b := by
  have h := cauchy_schwarz_dotL a b
  have := Real.sqrt_le_sqrt h
  rw [Real.sqrt_sq_eq_abs, Real.sqrt_mul (dotL_self_nonneg a)] at this
  exact this

/-- C9 — Cosine similarity contract (spec-modelled; `src/embeddings.ts`
is absent from the snapshot): the similarity is the dot product divided
by the product of magnitudes, lies in `[-1, 1]`, is `0` whenever either
magnitude is zero, is symmetric, is `1` on identical non-zero vectors,
and is `0` on orthogonal vectors. -/
theorem cosine_similarity_contract (a b : List ℝ) (hlen : a.length = b.length) :
    cosineSimilarity a b = dotL a b / (magnitudeL a * magnitudeL b) ∧
    -1 ≤ cosineSimilarity a b ∧ cosineSimilarity a b ≤ 1 ∧
    (magnitudeL a = 0 ∨ magnitudeL b = 0 → cosineSimilarity a b = 0) ∧
    cosineSimilarity a b = cosineSimilarity b a ∧
    (a = b → magnitudeL a ≠ 0 → cosineSimilarity a b = 1) ∧
    (dotL a b = 0 → cosineSimilarity a b = 0) := by
  have habs := abs_dotL_le a b
  have hma := magnitudeL_nonneg a
  have hmb := magnitudeL_nonneg b
  have hformula : cosineSimilarity a b = dotL a b / (magnitudeL a * magnitudeL b) := by
    unfold cosineSimilarity
    by_cases hz : magnitudeL a = 0 ∨ magnitudeL b = 0
    · rw [if_pos hz]
      rcases hz with hz | hz
      · rw [dotL_zero_left a b
          (dotL_self_eq_zero_all a ((magnitudeL_eq_zero_iff a).mp hz)), zero_div]
      · rw [dotL_comm a b, dotL_zero_left b a
          (dotL_self_eq_zero_all b ((magnitudeL_eq_zero_iff b).mp hz)), zero_div]
    · rw [if_neg hz]
  have hbounds : -1 ≤ cosineSimilarity a b ∧ cosineSimilarity a b ≤ 1 := by
    unfold cosineSimilarity
    by_cases hz : magnitudeL a = 0 ∨ magnitudeL b = 0
    · rw [if_pos hz]
      norm_num
    · rw [if_neg hz]
      push_neg at hz
      have hpos : 0 < magnitudeL a * magnitudeL b :=
        mul_pos (lt_of_le_of_ne hma (Ne.symm hz.1)) (lt_of_le_of_ne hmb (Ne.symm hz.2))
      have : |dotL a b / (magnitudeL a * magnitudeL b)| ≤ 1 := by
        rw [abs_div, abs_of_pos hpos]
        exact (div_le_one hpos).mpr habs
      exact abs_le.mp this
  refine ⟨hformula, hbounds.1, hbounds.2, ?_, ?_, ?_, ?_⟩
  · intro hz
    unfold cosineSimilarity
    rw [if_pos hz]
  · unfold cosineSimilarity
    by_cases ha0 : magnitudeL a = 0 <;> by_cases hb0 : magnitudeL b = 0 <;>
      simp [ha0, hb0, dotL_comm a b, mul_comm]
  · rintro rfl hne
    unfold cosineSimilarity
    rw [if_neg (by tauto)]
    have hd : dotL a a ≠ 0 := fun h => hne ((magnitudeL_eq_zero_iff a).mpr h)
    unfold magnitudeL
    rw [Real.mul_self_sqrt (dotL_self_nonneg a), div_self hd]
  · intro h0
    unfold cosineSimilarity
    by_cases hz : magnitudeL a = 0 ∨ magnitudeL b = 0
    · rw [if_pos hz]
    · rw [if_neg hz, h0, zero_div]

/-- Witness for C9 on the one-dimensional unit vector. -/
theorem cosine_similarity_contract_witness :
    ([(1 : ℝ)].length = [(1 : ℝ)].length) ∧
    cosineSimilarity [(1 : ℝ)] [(1 : ℝ)] = 1 :=
  ⟨rfl, (cosine_similarity_contract [(1 : ℝ)] [(1 : ℝ)] rfl).2.2.2.2.2.1 rfl (by
    simp [magnitudeL, dotL])⟩

